import Mathlib

/-!
Verification development for the Text2Logic symbolic logic subsystem
(src/Text2Logic): expression model, parser (`logic_parser.py`), deduction
rules (`deduction_rules.py`) and forward-chaining engine (`logic_engine.py`),
shallowly embedded in Lean.  Python strings are modelled as `List Char`,
Python sets of expressions as duplicate-free lists with structural-equality
membership (set iteration order is fixed to insertion order; all proved
statements are order-insensitive facts about the set of elements or concern
a single deterministic run).
-/

set_option maxHeartbeats 1000000

abbrev Str := List Char

/-- The five logical operators of `LogicalOperator` (logic_parser.py, lines 29-35). -/
inductive Op where
  | and
  | or
  | not
  | implies
  | iff
deriving DecidableEq

/-- Canonical glyph of each operator (the `Enum` value in the source). -/
def Op.glyph : Op → Str
  | .and => "∧".data
  | .or => "∨".data
  | .not => "¬".data
  | .implies => "→".data
  | .iff => "↔".data

/-- The expression model: `Atom(subject, relation, objects)` and
`LogicalExpression(operator, operands)` (logic_parser.py, lines 54-169).
The Python classes are distinct types with deep structural equality; the
parser never constructs `LogicalExpression` with `operator=None`, and no
engine or rule code does either, so that degenerate wrapper is not modelled. -/
inductive Expr where
  | atom (subject relation : Str) (objects : List Str)
  | comp (op : Op) (operands : List Expr)

mutual

/-- Structural equality test (mirrors `Atom.__eq__` / `LogicalExpression.__eq__`,
logic_parser.py lines 69-74 and 165-169). -/
def Expr.beq : Expr → Expr → Bool
  | .atom s1 r1 o1, .atom s2 r2 o2 => s1 = s2 && r1 = r2 && o1 = o2
  | .comp op1 l1, .comp op2 l2 => op1 = op2 && Expr.beqList l1 l2
  | _, _ => false

/-- Pointwise structural equality of operand lists. -/
def Expr.beqList : List Expr → List Expr → Bool
  | [], [] => true
  | x :: xs, y :: ys => Expr.beq x y && Expr.beqList xs ys
  | _, _ => false

end

mutual

theorem Expr.beq_refl : ∀ e : Expr, Expr.beq e e = true
  | .atom s r o => by simp [Expr.beq]
  | .comp op l => by simp [Expr.beq, Expr.beqList_refl l]

theorem Expr.beqList_refl : ∀ l : List Expr, Expr.beqList l l = true
  | [] => rfl
  | x :: xs => by simp [Expr.beqList, Expr.beq_refl x, Expr.beqList_refl xs]

end

mutual

theorem Expr.eq_of_beq : ∀ a b : Expr, Expr.beq a b = true → a = b
  | .atom s1 r1 o1, .atom s2 r2 o2 => by
    simp only [Expr.beq, Bool.and_eq_true, decide_eq_true_eq]
    rintro ⟨⟨h1, h2⟩, h3⟩
    simp [h1, h2, h3]
  | .atom _ _ _, .comp _ _ => by simp [Expr.beq]
  | .comp _ _, .atom _ _ _ => by simp [Expr.beq]
  | .comp op1 l1, .comp op2 l2 => by
    simp only [Expr.beq, Bool.and_eq_true, decide_eq_true_eq]
    rintro ⟨h1, h2⟩
    rw [h1, Expr.eqList_of_beqList l1 l2 h2]

theorem Expr.eqList_of_beqList : ∀ l1 l2 : List Expr, Expr.beqList l1 l2 = true → l1 = l2
  | [], [] => fun _ => rfl
  | [], _ :: _ => by simp [Expr.beqList]
  | _ :: _, [] => by simp [Expr.beqList]
  | x :: xs, y :: ys => by
    simp only [Expr.beqList, Bool.and_eq_true]
    rintro ⟨h1, h2⟩
    rw [Expr.eq_of_beq x y h1, Expr.eqList_of_beqList xs ys h2]

end

instance : DecidableEq Expr := fun a b =>
  if h : Expr.beq a b = true then
    .isTrue (Expr.eq_of_beq a b h)
  else
    .isFalse (fun he => h (he ▸ Expr.beq_refl a))

instance {ε α : Type} [DecidableEq ε] [DecidableEq α] : DecidableEq (Except ε α) := fun a b =>
  match a, b with
  | .ok x, .ok y =>
    if h : x = y then .isTrue (by rw [h]) else .isFalse (fun hh => by cases hh; exact h rfl)
  | .error x, .error y =>
    if h : x = y then .isTrue (by rw [h]) else .isFalse (fun hh => by cases hh; exact h rfl)
  | .ok _, .error _ => .isFalse (fun hh => by cases hh)
  | .error _, .ok _ => .isFalse (fun hh => by cases hh)

/-- `operands[i]` as used by the rules and engine.  Python raises `IndexError`
when the index is absent; every expression reaching those code paths has the
required arity, and we return a dummy atom in the impossible case. -/
def Expr.arg (e : Expr) (i : Nat) : Expr :=
  match e with
  | .atom _ _ _ => .atom [] [] []
  | .comp _ ops => ops.getD i (.atom [] [] [])

def Expr.isAtomE : Expr → Bool
  | .atom _ _ _ => true
  | .comp _ _ => false

def Expr.isCompOp (e : Expr) (o : Op) : Bool :=
  match e with
  | .atom _ _ _ => false
  | .comp op _ => op = o

/-- Separator-joined concatenation (Python `sep.join(strs)`). -/
def joinSep (sep : Str) : List Str → Str
  | [] => []
  | [x] => x
  | x :: xs => x ++ sep ++ joinSep sep xs

/-- `Atom.__str__` (logic_parser.py, lines 61-64): `({subject}){relation}({objects joined by ", "})`.
The `if not self.objects` branch produces the same text as the general one. -/
def renderAtom (s r : Str) (os : List Str) : Str :=
  '(' :: s ++ ')' :: r ++ '(' :: joinSep ", ".data os ++ [')']

mutual

/-- `Atom.__str__` / `LogicalExpression.__str__` (logic_parser.py, lines 61-64 and 150-160).
`NOT` renders as `¬` followed by `operands[0]`; any other operator joins the
rendered operands with ` {glyph} ` and wraps the result in parentheses.
Python raises `IndexError` on a `NOT` with no operands; that unreachable case
renders as a bare `¬`. -/
def render : Expr → Str
  | .atom s r os => renderAtom s r os
  | .comp .not (o :: _) => '¬' :: render o
  | .comp .not [] => ['¬']
  | .comp op ops => '(' :: joinSep (' ' :: op.glyph ++ [' ']) (renderList ops) ++ [')']

/-- Renders each operand (the `str(op) for op in self.operands` comprehension). -/
def renderList : List Expr → List Str
  | [] => []
  | e :: es => render e :: renderList es

end

/-- Python `str.strip()`: drop leading and trailing whitespace. -/
def strip (l : Str) : Str :=
  ((l.dropWhile Char.isWhitespace).reverse.dropWhile Char.isWhitespace).reverse

/-- Python `str.split(sep)` for a single-character separator: always returns
at least one (possibly empty) part. -/
def splitChar (sep : Char) : Str → List Str
  | [] => [[]]
  | c :: t =>
    if c = sep then [] :: splitChar sep t
    else
      match splitChar sep t with
      | h :: t' => (c :: h) :: t'
      | [] => [[c]]

/-- `[A-Za-z_]` (first character of a relation identifier). -/
def isRelStart (c : Char) : Bool := c.isAlpha || c = '_'

/-- `[A-Za-z0-9_]` (subsequent characters of a relation identifier). -/
def isRelChar (c : Char) : Bool := c.isAlphanum || c = '_'

/-- The regular expression `\(([^)]+)\)([A-Za-z_][A-Za-z0-9_]*)\(([^)]*)\)`
matched at the start of the input (both the tokenizer's atom scan,
logic_parser.py line 240, and `_parse_atom`'s capture, line 352, use this
shape).  Returns the three capture groups and the unconsumed rest.  The
regex is deterministic: each greedy class run is bounded by the delimiter
that follows it, so backtracking can never produce a different match. -/
def scanAtom : List Char → Option (Str × Str × Str × List Char)
  | '(' :: rest =>
    let g1 := rest.takeWhile (· ≠ ')')
    if g1 = [] then none
    else
      match rest.dropWhile (· ≠ ')') with
      | ')' :: rest2 =>
        match rest2 with
        | c :: rest3 =>
          if isRelStart c then
            let relTail := rest3.takeWhile isRelChar
            match rest3.dropWhile isRelChar with
            | '(' :: rest5 =>
              let g3 := rest5.takeWhile (· ≠ ')')
              match rest5.dropWhile (· ≠ ')') with
              | ')' :: rest7 => some (g1, c :: relTail, g3, rest7)
              | _ => none
            | _ => none
          else none
        | [] => none
      | _ => none
  | _ => none

/-- The tokenizer's atom branch (logic_parser.py, lines 240-247): the matched
token text and the rest of the input. -/
def tryAtomToken (cs : List Char) : Option (Str × List Char) :=
  (scanAtom cs).map fun g =>
    ('(' :: g.1 ++ ')' :: g.2.1 ++ '(' :: g.2.2.1 ++ [')'], g.2.2.2)

/-- The tokenizer's two-character operator branch (logic_parser.py, lines
250-264): the Python membership list also contains the one-character glyphs
`→`, `↔` and the three-character `<->`, `<=>`, none of which can equal a
two-character slice, so only `->` and `=>` ever match; all comparisons are
kept literally. -/
def normTwo (a b : Char) : Option Str :=
  let two := [a, b]
  if two = "→".data ∨ two = "↔".data ∨ two = "->".data ∨ two = "=>".data ∨
      two = "<->".data ∨ two = "<=>".data then
    some (if two = "->".data then "→".data
          else if two = "=>".data then "→".data
          else if two = "<->".data then "↔".data
          else if two = "<=>".data then "↔".data
          else two)
  else none

/-- The tokenizer's single-character branch (logic_parser.py, lines 267-279):
glyphs pass through, ASCII aliases are normalized. -/
def normOne (c : Char) : Option Str :=
  if c ∈ ['∧', '∨', '¬', '→', '↔', '&', '|', '~', '!', '^', 'v'] then
    some (if c = '&' ∨ c = '^' then "∧".data
          else if c = '|' ∨ c = 'v' then "∨".data
          else if c = '~' ∨ c = '!' then "¬".data
          else [c])
  else none

/-- One fuelled step structure for `_tokenize`'s scanning loop (logic_parser.py,
lines 224-284).  Each loop iteration consumes at least one character, so fuel
equal to the input length (supplied by `tokenize`) always suffices; the
fuel-exhaustion branch is unreachable from `tokenize`.  Errors carry the fixed
part of the Python message (`ValueError(f"Unexpected character: ... ")`). -/
def tokLoop : Nat → List Char → Except String (List Str)
  | _, [] => .ok []
  | 0, _ :: _ => .error "out of fuel"
  | fuel + 1, c :: cs =>
    if c.isWhitespace then tokLoop fuel cs
    else
      match tryAtomToken (c :: cs) with
      | some (tok, rest) => (tokLoop fuel rest).map (tok :: ·)
      | none =>
        match cs with
        | c2 :: cs2 =>
          match normTwo c c2 with
          | some t => (tokLoop fuel cs2).map (t :: ·)
          | none =>
            match normOne c with
            | some t => (tokLoop fuel cs).map (t :: ·)
            | none => .error "Unexpected character"
        | [] =>
          match normOne c with
          | some t => (tokLoop fuel cs).map (t :: ·)
          | none => .error "Unexpected character"

/-- `LogicParser._tokenize` (logic_parser.py, lines 224-284). -/
def tokenize (cs : List Char) : Except String (List Str) :=
  tokLoop cs.length cs

/-- `LogicParser._parse_atom` (logic_parser.py, lines 343-372): re-match the
atom regex on the token (Python's `re.match` is a prefix match; tokens
produced by the tokenizer are always exact matches), strip the groups,
validate parentheses, and split the object list on commas. -/
def parseAtomToken (tok : Str) : Except String Expr :=
  match scanAtom tok with
  | none => .error "Invalid atom format"
  | some (g1, g2, g3, _) =>
    let subject := strip g1
    let relation := strip g2
    let objectsStr := strip g3
    if ('(' ∈ subject) ∨ (')' ∈ subject) then
      .error "Subject contains invalid parentheses"
    else if objectsStr ≠ [] then
      let objects := (splitChar ',' objectsStr).map strip
      if objects.any (fun o => ('(' ∈ o) ∨ (')' ∈ o)) then
        .error "Object contains invalid parentheses"
      else .ok (.atom subject relation objects)
    else .ok (.atom subject relation [])

/-- `LogicParser._parse_not` (logic_parser.py, lines 334-341): consume leading
`¬` tokens recursively, then parse an atom token. -/
def parseNotTk : List Str → Except String (Expr × List Str)
  | [] => .error "Unexpected end of expression"
  | t :: rest =>
    if t = "¬".data then
      match parseNotTk rest with
      | .ok (e, r) => .ok (.comp .not [e], r)
      | .error m => .error m
    else
      match parseAtomToken t with
      | .ok a => .ok (a, rest)
      | .error m => .error m

theorem parseNotTk_length : ∀ ts e r, parseNotTk ts = .ok (e, r) → r.length < ts.length := by
  intro ts
  induction ts with
  | nil => intro e r h; simp [parseNotTk] at h
  | cons t rest ih =>
    intro e r h
    simp only [parseNotTk] at h
    split at h
    · cases hh : parseNotTk rest with
      | ok p =>
        rw [hh] at h
        cases h
        have := ih p.1 p.2 (by rw [hh])
        simp only [List.length_cons]
        omega
      | error m => rw [hh] at h; cases h
    · cases hh : parseAtomToken t with
      | ok a =>
        rw [hh] at h
        cases h
        simp
      | error m => rw [hh] at h; cases h

/-- The collecting loop of `_parse_and` (logic_parser.py, lines 326-329):
while the next token is `∧`, parse another `NOT`-level operand. -/
def parseAndLoop : Nat → List Expr → List Str → Except String (List Expr × List Str)
  | _, acc, [] => .ok (acc, [])
  | 0, _, _ :: _ => .error "out of fuel"
  | fuel + 1, acc, t :: rest =>
    if t = "∧".data then
      match parseNotTk rest with
      | .ok (e, r) => parseAndLoop fuel (acc ++ [e]) r
      | .error m => .error m
    else .ok (acc, t :: rest)

/-- `LogicParser._parse_and` (logic_parser.py, lines 321-332). -/
def parseAnd (ts : List Str) : Except String (Expr × List Str) :=
  match parseNotTk ts with
  | .ok (left, r) =>
    match parseAndLoop r.length [left] r with
    | .ok ([single], rest) => .ok (single, rest)
    | .ok (ops, rest) => .ok (.comp .and ops, rest)
    | .error m => .error m
  | .error m => .error m

/-- The collecting loop of `_parse_or` (logic_parser.py, lines 313-315). -/
def parseOrLoop : Nat → List Expr → List Str → Except String (List Expr × List Str)
  | _, acc, [] => .ok (acc, [])
  | 0, _, _ :: _ => .error "out of fuel"
  | fuel + 1, acc, t :: rest =>
    if t = "∨".data then
      match parseAnd rest with
      | .ok (e, r) => parseOrLoop fuel (acc ++ [e]) r
      | .error m => .error m
    else .ok (acc, t :: rest)

/-- `LogicParser._parse_or` (logic_parser.py, lines 308-319). -/
def parseOr (ts : List Str) : Except String (Expr × List Str) :=
  match parseAnd ts with
  | .ok (left, r) =>
    match parseOrLoop r.length [left] r with
    | .ok ([single], rest) => .ok (single, rest)
    | .ok (ops, rest) => .ok (.comp .or ops, rest)
    | .error m => .error m
  | .error m => .error m

/-- The left-associative folding loop of `_parse_implies` (logic_parser.py,
lines 301-304). -/
def parseImpLoop : Nat → Expr → List Str → Except String (Expr × List Str)
  | _, left, [] => .ok (left, [])
  | 0, _, _ :: _ => .error "out of fuel"
  | fuel + 1, left, t :: rest =>
    if t = "→".data then
      match parseOr rest with
      | .ok (right, r) => parseImpLoop fuel (.comp .implies [left, right]) r
      | .error m => .error m
    else .ok (left, t :: rest)

/-- `LogicParser._parse_implies` (logic_parser.py, lines 297-306). -/
def parseImplies (ts : List Str) : Except String (Expr × List Str) :=
  match parseOr ts with
  | .ok (left, r) => parseImpLoop r.length left r
  | .error m => .error m

/-- The left-associative folding loop of `_parse_iff` (logic_parser.py,
lines 290-293). -/
def parseIffLoop : Nat → Expr → List Str → Except String (Expr × List Str)
  | _, left, [] => .ok (left, [])
  | 0, _, _ :: _ => .error "out of fuel"
  | fuel + 1, left, t :: rest =>
    if t = "↔".data then
      match parseImplies rest with
      | .ok (right, r) => parseIffLoop fuel (.comp .iff [left, right]) r
      | .error m => .error m
    else .ok (left, t :: rest)

/-- `LogicParser._parse_iff` (logic_parser.py, lines 286-295). -/
def parseIff (ts : List Str) : Except String (Expr × List Str) :=
  match parseImplies ts with
  | .ok (left, r) => parseIffLoop r.length left r
  | .error m => .error m

/-- `LogicParser.parse` (logic_parser.py, lines 197-222): strip, tokenize,
reject empty token lists, run the precedence-climbing descent from `_parse_iff`,
and reject leftover tokens. -/
def parseText (text : Str) : Except String Expr :=
  match tokenize (strip text) with
  | .error m => .error m
  | .ok [] => .error "Empty expression"
  | .ok (t :: ts) =>
    match parseIff (t :: ts) with
    | .ok (e, []) => .ok e
    | .ok (_, _ :: _) => .error "Unexpected token"
    | .error m => .error m

example : parseText "(Pedro)IsA(estudiante)".data =
    .ok (.atom "Pedro".data "IsA".data ["estudiante".data]) := by decide

example : parseText "(Pedro)IsA(estudiante) → (Pedro)estudia()".data =
    .ok (.comp .implies [.atom "Pedro".data "IsA".data ["estudiante".data],
                         .atom "Pedro".data "estudia".data []]) := by decide

example : parseText "(X)IsA(estudiante) → (X)estudia".data =
    .error "Unexpected character" := by decide

example : parseText "¬(Pedro)Feliz()".data =
    .ok (.comp .not [.atom "Pedro".data "Feliz".data []]) := by decide

example : parseText "(A)P() ∧ (B)Q() ∨ (C)R()".data =
    .ok (.comp .or [.comp .and [.atom "A".data "P".data [], .atom "B".data "Q".data []],
                    .atom "C".data "R".data []]) := by decide

/-!
## Unification and substitution (logic_parser.py, `Atom.matches` etc.)
-/

/-- `Atom._is_variable` (logic_parser.py, lines 131-135): a term is a variable
iff it starts with `X`, `Y` or `Z`; the additional regex `^[XYZ]\d+$` test in
the source is subsumed by the prefix test. -/
def isVariable (t : Str) : Bool :=
  match t with
  | [] => false
  | c :: _ => c = 'X' || c = 'Y' || c = 'Z'

/-- Python dict membership/lookup for a bindings mapping, modelled as an
association list extended in insertion order. -/
def lookupB (b : List (Str × Str)) (k : Str) : Option Str :=
  (b.find? (fun p => p.1 = k)).map (·.2)

/-- `Atom._match_term` (logic_parser.py, lines 104-129): two constants must be
equal; a variable either agrees with its existing binding or binds fresh. -/
def matchTerm (t1 t2 : Str) (b : List (Str × Str)) : Bool × List (Str × Str) :=
  if !(isVariable t1) && !(isVariable t2) then (decide (t1 = t2), b)
  else if isVariable t1 then
    match lookupB b t1 with
    | some v => (decide (v = t2), b)
    | none => (true, b ++ [(t1, t2)])
  else if isVariable t2 then
    match lookupB b t2 with
    | some v => (decide (v = t1), b)
    | none => (true, b ++ [(t2, t1)])
  else (false, b)

/-- The pairwise object loop of `Atom.matches` (logic_parser.py, lines 98-100);
arity is checked before this loop runs. -/
def matchTerms : List Str → List Str → List (Str × Str) → Bool × List (Str × Str)
  | [], _, b => (true, b)
  | _ :: _, [], b => (false, b)
  | o1 :: os1, o2 :: os2, b =>
    let p := matchTerm o1 o2 b
    if p.1 then matchTerms os1 os2 p.2 else (false, p.2)

/-- `Atom.matches` (logic_parser.py, lines 76-102), called with fresh bindings
as the rules do: relations must be identical, then subject and each object
position are matched term by term; any failure returns `(False, {})`. -/
def atomMatches : Expr → Expr → Bool × List (Str × Str)
  | .atom s1 r1 o1, .atom s2 r2 o2 =>
    if r1 ≠ r2 then (false, [])
    else
      let p1 := matchTerm s1 s2 []
      if !p1.1 then (false, [])
      else if o1.length ≠ o2.length then (false, [])
      else
        let p2 := matchTerms o1 o2 p1.2
        if p2.1 then (true, p2.2) else (false, [])
  | _, _ => (false, [])

/-- `bindings.get(term, term)` as used by `Atom.substitute`. -/
def substTerm (b : List (Str × Str)) (t : Str) : Str :=
  (lookupB b t).getD t

mutual

/-- `Atom.substitute` (logic_parser.py, lines 137-141) together with
`ModusPonens._substitute` (deduction_rules.py, lines 126-133): replace bound
terms in an atom, recurse through compound operands. -/
def substExpr (b : List (Str × Str)) : Expr → Expr
  | .atom s r os => .atom (substTerm b s) r (os.map (substTerm b))
  | .comp op ops => .comp op (substList b ops)

def substList (b : List (Str × Str)) : List Expr → List Expr
  | [] => []
  | e :: es => substExpr b e :: substList b es

end

/-- Operand list of an expression (`self.operands`; empty for an `Atom`,
which has no such attribute and never reaches these code paths). -/
def Expr.operandsOf : Expr → List Expr
  | .atom _ _ _ => []
  | .comp _ ops => ops

/-- `ModusPonens._match` / `ModusTollens._match` (deduction_rules.py, lines
115-120 and 186-191): unification for an atom/atom pair, structural equality
otherwise. -/
def exprUnifies (e1 e2 : Expr) : Bool :=
  match e1, e2 with
  | .atom _ _ _, .atom _ _ _ => (atomMatches e1 e2).1
  | _, _ => e1 = e2

/-!
## Deduction rules (deduction_rules.py)

Each Python rule's `apply` interleaves candidate generation (nested loops
over the knowledge base only) with the uniform dedup filter
`if new_fact not in knowledge_base and new_fact not in new_facts`, emitting
the pair and adding the fact to `new_facts`.  We factor each rule into its
generation order (`...Candidates`, including the justification f-string) and
the shared filter (`filterEmit`), which is observationally identical.
-/

def mpJust (fact impl nf : Expr) : Str :=
  "Modus Ponens: ".data ++ render fact ++ " ∧ (".data ++ render impl ++ ") ⊢ ".data ++ render nf

/-- `ModusPonens.apply` generation (deduction_rules.py, lines 75-113). -/
def mpCandidates (kb : List Expr) : List (Expr × Str) :=
  let implications := kb.filter fun e => e.isCompOp .implies
  let facts := kb.filter fun e => e.isAtomE || !(e.isCompOp .implies)
  implications.flatMap fun impl =>
    let a := impl.arg 0
    let c := impl.arg 1
    facts.filterMap fun fact =>
      match a, fact with
      | .atom _ _ _, .atom _ _ _ =>
        let p := atomMatches a fact
        if p.1 then
          let nf := substExpr p.2 c
          some (nf, mpJust fact impl nf)
        else none
      | _, _ =>
        if a = fact then some (c, mpJust fact impl c) else none

def mtJust (neg impl nf : Expr) : Str :=
  "Modus Tollens: ".data ++ render neg ++ " ∧ (".data ++ render impl ++ ") ⊢ ".data ++ render nf

/-- `ModusTollens.apply` generation (deduction_rules.py, lines 153-184): the
negated antecedent is emitted without applying the consequent-side bindings. -/
def mtCandidates (kb : List Expr) : List (Expr × Str) :=
  let implications := kb.filter fun e => e.isCompOp .implies
  let negations := kb.filter fun e => e.isCompOp .not
  implications.flatMap fun impl =>
    let a := impl.arg 0
    let c := impl.arg 1
    negations.filterMap fun neg =>
      if exprUnifies c (neg.arg 0) then
        let nf := Expr.comp .not [a]
        some (nf, mtJust neg impl nf)
      else none

def hsJust (i1 i2 nf : Expr) : Str :=
  "Hypothetical Syllogism: (".data ++ render i1 ++ ") ∧ (".data ++ render i2 ++ ") ⊢ ".data ++ render nf

/-- `HypotheticalSyllogism.apply` generation (deduction_rules.py, lines
211-237): distinct implication pairs with exactly equal middle term. -/
def hsCandidates (kb : List Expr) : List (Expr × Str) :=
  let implications := kb.filter fun e => e.isCompOp .implies
  implications.flatMap fun impl1 =>
    implications.filterMap fun impl2 =>
      if impl1 = impl2 then none
      else if impl1.arg 1 = impl2.arg 0 then
        let nf := Expr.comp .implies [impl1.arg 0, impl2.arg 1]
        some (nf, hsJust impl1 impl2 nf)
      else none

def dsJust (disj neg other : Expr) : Str :=
  "Disjunctive Syllogism: (".data ++ render disj ++ ") ∧ ".data ++ render neg ++ " ⊢ ".data ++ render other

/-- `DisjunctiveSyllogism.apply` generation (deduction_rules.py, lines
257-286): for each disjunct equal to a negated expression, every other
disjunct is emitted as an independent fact. -/
def dsCandidates (kb : List Expr) : List (Expr × Str) :=
  let disjunctions := kb.filter fun e => e.isCompOp .or
  let negations := kb.filter fun e => e.isCompOp .not
  disjunctions.flatMap fun disj =>
    negations.flatMap fun neg =>
      let negated := neg.arg 0
      disj.operandsOf.enum.flatMap fun ip =>
        if ip.2 = negated then
          disj.operandsOf.enum.filterMap fun jp =>
            if ip.1 ≠ jp.1 then some (jp.2, dsJust disj neg jp.2) else none
        else []

def simpJust (conj operand : Expr) : Str :=
  "Simplification: (".data ++ render conj ++ ") ⊢ ".data ++ render operand

/-- `Simplification.apply` generation (deduction_rules.py, lines 306-322). -/
def simpCandidates (kb : List Expr) : List (Expr × Str) :=
  (kb.filter fun e => e.isCompOp .and).flatMap fun conj =>
    conj.operandsOf.map fun operand => (operand, simpJust conj operand)

def conjJust (f1 f2 nf : Expr) : Str :=
  "Conjunction: ".data ++ render f1 ++ " ∧ ".data ++ render f2 ++ " ⊢ ".data ++ render nf

/-- `Conjunction.apply` generation (deduction_rules.py, lines 342-363):
pairs of atomic facts, guarded by the 20-atom explosion limit. -/
def conjCandidates (kb : List Expr) : List (Expr × Str) :=
  let facts := kb.filter fun e => e.isAtomE
  if facts.length > 20 then []
  else
    facts.enum.flatMap fun ip =>
      (facts.drop (ip.1 + 1)).map fun f2 =>
        let nf := Expr.comp .and [ip.2, f2]
        (nf, conjJust ip.2 f2 nf)

/-- `Resolution._are_complementary` (deduction_rules.py, lines 442-448): if
the first literal is a negation only its body is compared; otherwise the
second literal's negation body is compared. -/
def areComplementary (e1 e2 : Expr) : Bool :=
  if e1.isCompOp .not then e1.arg 0 = e2
  else if e2.isCompOp .not then e2.arg 0 = e1
  else false

def resJust (d1 d2 nf : Expr) : Str :=
  "Resolution: (".data ++ render d1 ++ ") ∧ (".data ++ render d2 ++ ") ⊢ ".data ++ render nf

/-- `Resolution.apply` generation (deduction_rules.py, lines 401-440):
distinct disjunction pairs, complementary literal search, removal of every
occurrence of each resolved literal, with the both-sides-empty case skipped. -/
def resCandidates (kb : List Expr) : List (Expr × Str) :=
  let disjunctions := kb.filter fun e => e.isCompOp .or
  disjunctions.flatMap fun d1 =>
    disjunctions.flatMap fun d2 =>
      if d1 = d2 then []
      else
        d1.operandsOf.flatMap fun op1 =>
          d2.operandsOf.filterMap fun op2 =>
            if areComplementary op1 op2 then
              let r1 := d1.operandsOf.filter (· ≠ op1)
              let r2 := d2.operandsOf.filter (· ≠ op2)
              if r1 = [] ∧ r2 = [] then none
              else
                let allRemaining := r1 ++ r2
                let nf := if allRemaining.length = 1 then
                    allRemaining.getD 0 (.atom [] [] [])
                  else Expr.comp .or allRemaining
                some (nf, resJust d1 d2 nf)
            else none

def beJust (bi impl : Expr) : Str :=
  "Biconditional Elimination: (".data ++ render bi ++ ") ⊢ ".data ++ render impl

/-- `BiconditionalElimination.apply` generation (deduction_rules.py, lines
468-495): each biconditional yields both implications, forward first. -/
def beCandidates (kb : List Expr) : List (Expr × Str) :=
  (kb.filter fun e => e.isCompOp .iff).flatMap fun bi =>
    let l := bi.arg 0
    let r := bi.arg 1
    let i1 := Expr.comp .implies [l, r]
    let i2 := Expr.comp .implies [r, l]
    [(i1, beJust bi i1), (i2, beJust bi i2)]

/-- A deduction rule: name, priority and generation order
(`DeductionRule` subclasses, deduction_rules.py). -/
structure Rule where
  name : String
  priority : Nat
  candidates : List Expr → List (Expr × Str)

def modusPonens : Rule := ⟨"Modus Ponens", 10, mpCandidates⟩

def modusTollens : Rule := ⟨"Modus Tollens", 9, mtCandidates⟩

def hypotheticalSyllogism : Rule := ⟨"Hypothetical Syllogism", 7, hsCandidates⟩

def disjunctiveSyllogism : Rule := ⟨"Disjunctive Syllogism", 8, dsCandidates⟩

def simplification : Rule := ⟨"Simplification", 10, simpCandidates⟩

def conjunctionRule : Rule := ⟨"Conjunction", 3, conjCandidates⟩

def resolution : Rule := ⟨"Resolution", 6, resCandidates⟩

def biconditionalElimination : Rule := ⟨"Biconditional Elimination", 9, beCandidates⟩

/-- The shared dedup filter of every rule's `apply`: a candidate is emitted
only if structurally absent from both the knowledge base and the pending
`new_facts` set, and is then added to the pending set. -/
def filterEmit : List (Expr × Str) → List Expr → List Expr → List (Expr × Str) × List Expr
  | [], _, nf => ([], nf)
  | (c, j) :: rest, kb, nf =>
    if c ∈ kb ∨ c ∈ nf then filterEmit rest kb nf
    else
      let p := filterEmit rest kb (nf ++ [c])
      ((c, j) :: p.1, p.2)

/-- The rule loop of `RuleManager.apply_all_rules` (deduction_rules.py, lines
528-545): one shared `new_facts` set threads through the rules in order. -/
def passLoop : List Rule → List Expr → List Expr → List (Expr × Str)
  | [], _, _ => []
  | r :: rs, kb, nf =>
    let p := filterEmit (r.candidates kb) kb nf
    p.1 ++ passLoop rs kb p.2

/-- `RuleManager.apply_all_rules` (deduction_rules.py, lines 528-545). -/
def applyAllRules (rules : List Rule) (kb : List Expr) : List (Expr × Str) :=
  passLoop rules kb []

/-- `RuleManager.__init__` (deduction_rules.py, lines 505-526): the rule list
`[ModusPonens, ModusTollens, HypotheticalSyllogism, DisjunctiveSyllogism,
Simplification, Resolution, BiconditionalElimination]` (plus `Conjunction`
when enabled) after Python's stable sort by descending priority
(10,10,9,9,8,7,6,3).  `Addition` is never instantiated by the manager. -/
def activeRules (enableConjunction : Bool) : List Rule :=
  [modusPonens, simplification, modusTollens, biconditionalElimination,
   disjunctiveSyllogism, hypotheticalSyllogism, resolution] ++
  (if enableConjunction then [conjunctionRule] else [])

/-!
## Forward-chaining engine (logic_engine.py)
-/

/-- `DerivationChain` (logic_engine.py, lines 36-45); the `premises` field
defaults to `[]` and is never populated by `infer_all`, so it is omitted. -/
structure DerivationChain where
  conclusion : Expr
  justification : Str
  depth : Nat
deriving DecidableEq

/-- `InferenceResult` (logic_engine.py, lines 48-55).  A contradiction entry
is modelled by the pair `(negated_expr, neg)` that the source interpolates
into the string `f"Contradiction: {negated_expr} and {neg} both present"`. -/
structure InferenceResult where
  original_facts : List Expr
  original_rules : List Expr
  derived_facts : List DerivationChain
  iterations : Nat
  contradictions : List (Expr × Expr)
deriving DecidableEq

/-- The mutable state of `LogicEngine` (logic_engine.py, lines 97-111). -/
structure LogicEngine where
  knowledge_base : List Expr
  original_facts : List Expr
  original_rules : List Expr
  derivation_chains : List DerivationChain
  max_iterations : Nat
  enable_conjunction : Bool
  contradictions : List (Expr × Expr)
deriving DecidableEq

/-- Python `set.add`: no-op when the element is already present (structural
equality); otherwise the element joins the set. -/
def setInsert (l : List Expr) (e : Expr) : List Expr :=
  if e ∈ l then l else l ++ [e]

/-- `LogicEngine.__init__` (logic_engine.py, lines 97-111); the Python
defaults are `max_iterations=100`, `enable_conjunction=False`. -/
def mkEngine (maxIterations : Nat) (enableConjunction : Bool) : LogicEngine :=
  ⟨[], [], [], [], maxIterations, enableConjunction, []⟩

/-- `LogicEngine.add_fact` with an already-parsed expression
(logic_engine.py, lines 121-132). -/
def addFact (st : LogicEngine) (e : Expr) : LogicEngine :=
  { st with knowledge_base := setInsert st.knowledge_base e,
            original_facts := setInsert st.original_facts e }

/-- Top-level rule classification used by `add_rule`: a `LogicalExpression`
whose operator is `IMPLIES` or `IFF`. -/
def isRuleExpr (e : Expr) : Bool :=
  match e with
  | .atom _ _ _ => false
  | .comp op _ => op = .implies || op = .iff

/-- `LogicEngine.add_rule` with an already-parsed expression
(logic_engine.py, lines 134-152). -/
def addRule (st : LogicEngine) (e : Expr) : LogicEngine :=
  let st' := { st with knowledge_base := setInsert st.knowledge_base e }
  if isRuleExpr e then
    { st' with original_rules := setInsert st'.original_rules e }
  else
    { st' with original_facts := setInsert st'.original_facts e }

/-- `LogicEngine.add_fact` with a string argument: parse, then add.  A parse
failure propagates as the `ValueError` the parser raises. -/
def addFactStr (st : LogicEngine) (s : Str) : Except String LogicEngine :=
  (parseText s).map (addFact st)

/-- `LogicEngine.add_rule` with a string argument. -/
def addRuleStr (st : LogicEngine) (s : Str) : Except String LogicEngine :=
  (parseText s).map (addRule st)

/-- `LogicEngine.clear` (logic_engine.py, lines 113-119). -/
def clearEngine (st : LogicEngine) : LogicEngine :=
  { st with knowledge_base := [], original_facts := [], original_rules := [],
            derivation_chains := [], contradictions := [] }

/-- `LogicEngine.query` (logic_engine.py, lines 298-311). -/
def queryE (st : LogicEngine) (e : Expr) : Bool :=
  e ∈ st.knowledge_base

/-- `LogicEngine._detect_contradictions` (logic_engine.py, lines 281-296):
clear the list, then record one entry per negation whose body is an atom
present in the knowledge base. -/
def detectContradictions (kb : List Expr) : List (Expr × Expr) :=
  let atoms := kb.filter fun e => e.isAtomE
  let negations := kb.filter fun e => e.isCompOp .not
  negations.filterMap fun neg =>
    let negated := neg.arg 0
    if negated ∈ atoms then some (negated, neg) else none

/-- The `while iteration < self.max_iterations` loop of `infer_all`
(logic_engine.py, lines 224-257), recursing on the remaining allowance:
apply all rules to the current knowledge base; stop on an empty pass;
otherwise add each derived fact and record a `DerivationChain` at the
current iteration depth.  Returns the final knowledge base, derivation
list, and the Python `iteration` counter. -/
def inferLoop (rules : List Rule) :
    Nat → List Expr → List DerivationChain → Nat → List Expr × List DerivationChain × Nat
  | 0, kb, chains, iteration => (kb, chains, iteration)
  | remaining + 1, kb, chains, iteration =>
    if applyAllRules rules kb = [] then (kb, chains, iteration + 1)
    else
      inferLoop rules remaining
        ((applyAllRules rules kb).foldl (fun k p => setInsert k p.1) kb)
        (chains ++ (applyAllRules rules kb).map fun p => ⟨p.1, p.2, iteration + 1⟩)
        (iteration + 1)

/-- `LogicEngine.infer_all` (logic_engine.py, lines 200-279): run the
iteration loop, detect contradictions once over the final knowledge base,
and return the updated engine together with the result snapshot (the
snapshot copies `original_facts`, `original_rules`, the full
`derivation_chains` list, the final iteration count and the contradiction
list). -/
def inferRun (st : LogicEngine) : List Expr × List DerivationChain × Nat :=
  inferLoop (activeRules st.enable_conjunction) st.max_iterations
    st.knowledge_base st.derivation_chains 0

/-- The state update and result snapshot of `infer_all`: the engine keeps its
fact/rule records and receives the loop's knowledge base and derivation list
plus the freshly computed contradiction list; the snapshot copies the same
data together with the final iteration count. -/
def inferAll (st : LogicEngine) : LogicEngine × InferenceResult :=
  ({ st with knowledge_base := (inferRun st).1,
             derivation_chains := (inferRun st).2.1,
             contradictions := detectContradictions (inferRun st).1 },
   ⟨st.original_facts, st.original_rules, (inferRun st).2.1, (inferRun st).2.2,
    detectContradictions (inferRun st).1⟩)

example :
    (mpCandidates [Expr.atom "Pedro".data "IsA".data ["estudiante".data],
      Expr.comp .implies [Expr.atom "X".data "IsA".data ["estudiante".data],
        Expr.atom "X".data "estudia".data []]]).map Prod.fst =
    [Expr.atom "Pedro".data "estudia".data []] := by decide

example :
    (inferAll (addRule (addFact (mkEngine 100 false)
        (Expr.atom "Pedro".data "IsA".data ["estudiante".data]))
        (Expr.comp .implies [Expr.atom "X".data "IsA".data ["estudiante".data],
          Expr.atom "X".data "estudia".data []]))).2.iterations = 2 := by decide

/-!
## Lemmas about the engine loop
-/

theorem setInsert_extend (l : List Expr) (e : Expr) : ∃ t, setInsert l e = l ++ t := by
  unfold setInsert
  split
  · exact ⟨[], by simp⟩
  · exact ⟨[e], rfl⟩

theorem mem_setInsert_self (l : List Expr) (e : Expr) : e ∈ setInsert l e := by
  unfold setInsert
  split
  · assumption
  · simp

theorem foldl_setInsert_extend (ps : List (Expr × Str)) (kb : List Expr) :
    ∃ t, ps.foldl (fun k p => setInsert k p.1) kb = kb ++ t := by
  induction ps generalizing kb with
  | nil => exact ⟨[], by simp⟩
  | cons p ps ih =>
    obtain ⟨t1, h1⟩ := setInsert_extend kb p.1
    obtain ⟨t2, h2⟩ := ih (setInsert kb p.1)
    refine ⟨t1 ++ t2, ?_⟩
    rw [List.foldl_cons, h2, h1, List.append_assoc]

theorem mem_foldl_setInsert_of_mem {a : Expr} (ps : List (Expr × Str)) (kb : List Expr)
    (h : a ∈ kb) : a ∈ ps.foldl (fun k p => setInsert k p.1) kb := by
  obtain ⟨t, ht⟩ := foldl_setInsert_extend ps kb
  rw [ht]
  exact List.mem_append_left _ h

theorem mem_foldl_setInsert_self (ps : List (Expr × Str)) (kb : List Expr) :
    ∀ p ∈ ps, p.1 ∈ ps.foldl (fun k q => setInsert k q.1) kb := by
  induction ps generalizing kb with
  | nil => intro p h; cases h
  | cons q qs ih =>
    intro p h
    rcases List.mem_cons.mp h with h' | h'
    · subst h'
      exact mem_foldl_setInsert_of_mem qs _ (mem_setInsert_self kb p.1)
    · exact ih _ p h'

theorem inferLoop_chains_extend (rules : List Rule) :
    ∀ (n : Nat) (kb : List Expr) (chains : List DerivationChain) (it : Nat),
      ∃ t, (inferLoop rules n kb chains it).2.1 = chains ++ t := by
  intro n
  induction n with
  | zero => intro kb chains it; exact ⟨[], by simp [inferLoop]⟩
  | succ m ih =>
    intro kb chains it
    simp only [inferLoop]
    split
    · exact ⟨[], by simp⟩
    · obtain ⟨t, ht⟩ :=
        ih ((applyAllRules rules kb).foldl (fun k p => setInsert k p.1) kb)
          (chains ++ (applyAllRules rules kb).map fun p => ⟨p.1, p.2, it + 1⟩) (it + 1)
      exact ⟨((applyAllRules rules kb).map fun p => ⟨p.1, p.2, it + 1⟩) ++ t,
        by rw [ht, List.append_assoc]⟩

theorem inferLoop_kb_extend (rules : List Rule) :
    ∀ (n : Nat) (kb : List Expr) (chains : List DerivationChain) (it : Nat),
      ∃ t, (inferLoop rules n kb chains it).1 = kb ++ t := by
  intro n
  induction n with
  | zero => intro kb chains it; exact ⟨[], by simp [inferLoop]⟩
  | succ m ih =>
    intro kb chains it
    simp only [inferLoop]
    split
    · exact ⟨[], by simp⟩
    · obtain ⟨t1, h1⟩ := foldl_setInsert_extend (applyAllRules rules kb) kb
      obtain ⟨t2, h2⟩ :=
        ih ((applyAllRules rules kb).foldl (fun k p => setInsert k p.1) kb)
          (chains ++ (applyAllRules rules kb).map fun p => ⟨p.1, p.2, it + 1⟩) (it + 1)
      exact ⟨t1 ++ t2, by rw [h2, h1, List.append_assoc]⟩

theorem inferLoop_iterations_le (rules : List Rule) :
    ∀ (n : Nat) (kb : List Expr) (chains : List DerivationChain) (it : Nat),
      (inferLoop rules n kb chains it).2.2 ≤ it + n := by
  intro n
  induction n with
  | zero => intro kb chains it; simp [inferLoop]
  | succ m ih =>
    intro kb chains it
    simp only [inferLoop]
    split
    · show it + 1 ≤ it + (m + 1)
      omega
    · have := ih ((applyAllRules rules kb).foldl (fun k p => setInsert k p.1) kb)
        (chains ++ (applyAllRules rules kb).map fun p => ⟨p.1, p.2, it + 1⟩) (it + 1)
      omega

theorem inferLoop_cap (rules : List Rule) :
    ∀ (n : Nat) (kb : List Expr) (chains : List DerivationChain) (it : Nat),
      applyAllRules rules (inferLoop rules n kb chains it).1 ≠ [] →
      (inferLoop rules n kb chains it).2.2 = it + n := by
  intro n
  induction n with
  | zero => intro kb chains it _; simp [inferLoop]
  | succ m ih =>
    intro kb chains it h
    simp only [inferLoop] at h ⊢
    split
    · rename_i hemp
      rw [if_pos hemp] at h
      exact absurd hemp h
    · rename_i hne
      rw [if_neg hne] at h
      have := ih ((applyAllRules rules kb).foldl (fun k p => setInsert k p.1) kb)
        (chains ++ (applyAllRules rules kb).map fun p => ⟨p.1, p.2, it + 1⟩) (it + 1) h
      omega

theorem inferLoop_lt_saturated (rules : List Rule) :
    ∀ (n : Nat) (kb : List Expr) (chains : List DerivationChain) (it : Nat),
      (inferLoop rules n kb chains it).2.2 < it + n →
      applyAllRules rules (inferLoop rules n kb chains it).1 = [] := by
  intro n
  induction n with
  | zero => intro kb chains it h; simp [inferLoop] at h
  | succ m ih =>
    intro kb chains it h
    simp only [inferLoop] at h ⊢
    split
    · rename_i hemp
      exact hemp
    · rename_i hne
      rw [if_neg hne] at h
      exact ih ((applyAllRules rules kb).foldl (fun k p => setInsert k p.1) kb)
        (chains ++ (applyAllRules rules kb).map fun p => ⟨p.1, p.2, it + 1⟩) (it + 1)
        (by omega)

theorem inferLoop_saturated (rules : List Rule) (n : Nat) (kb : List Expr)
    (chains : List DerivationChain) (it : Nat) (h : applyAllRules rules kb = []) :
    (inferLoop rules n kb chains it).1 = kb ∧ (inferLoop rules n kb chains it).2.1 = chains := by
  cases n with
  | zero => simp [inferLoop]
  | succ m => simp [inferLoop, h]

theorem inferLoop_conclusions (rules : List Rule) :
    ∀ (n : Nat) (kb : List Expr) (chains : List DerivationChain) (it : Nat),
      (∀ c ∈ chains, c.conclusion ∈ kb) →
      ∀ c ∈ (inferLoop rules n kb chains it).2.1,
        c.conclusion ∈ (inferLoop rules n kb chains it).1 := by
  intro n
  induction n with
  | zero => intro kb chains it h; simpa [inferLoop] using h
  | succ m ih =>
    intro kb chains it h
    simp only [inferLoop]
    split
    · exact h
    · apply ih
      intro c hc
      rcases List.mem_append.mp hc with h1 | h1
      · exact mem_foldl_setInsert_of_mem _ _ (h c h1)
      · obtain ⟨p, hp, rfl⟩ := List.mem_map.mp h1
        exact mem_foldl_setInsert_self _ _ p hp

/-!
## Concrete expressions shared by the scenario theorems
-/

def atomA : Expr := .atom "a".data "P".data []

def atomB : Expr := .atom "b".data "Q".data []

def atomC : Expr := .atom "c".data "R".data []

def pedroFeliz : Expr := .atom "Pedro".data "Feliz".data []

/-- Membership characterization of `_detect_contradictions` output. -/
theorem mem_detectContradictions (kb : List Expr) (a n : Expr) :
    (a, n) ∈ detectContradictions kb ↔
      (n ∈ kb ∧ n.isCompOp .not = true ∧ n.arg 0 = a ∧ a ∈ kb ∧ a.isAtomE = true) := by
  unfold detectContradictions
  simp only [List.mem_filterMap, List.mem_filter]
  constructor
  · rintro ⟨neg, ⟨hin, hnot⟩, hsome⟩
    split at hsome
    · rename_i hmem
      rw [Option.some.injEq, Prod.mk.injEq] at hsome
      obtain ⟨h1, h2⟩ := hsome
      subst h2
      exact ⟨hin, hnot, h1, h1 ▸ hmem.1, h1 ▸ hmem.2⟩
    · exact absurd hsome (by simp)
  · rintro ⟨hn, hnot, hna, ha, hatom⟩
    refine ⟨n, ⟨hn, hnot⟩, ?_⟩
    rw [hna, if_pos ⟨ha, hatom⟩]

/-- Claim C6: contradiction detection is computed once over the final
knowledge base of `infer_all`: an entry naming atom `a` (paired with the
negation `n`) is recorded exactly when the final knowledge base contains
both the atom `a` and a `NOT` expression `n` whose body is structurally
equal to `a`; in particular a run whose final knowledge base holds
`(Pedro)Feliz` and `¬(Pedro)Feliz` reports exactly one entry naming
`(Pedro)Feliz`. -/
theorem c6_contradiction_detection :
    (∀ (st : LogicEngine) (a n : Expr),
      ((a, n) ∈ (inferAll st).2.contradictions ↔
        (n ∈ (inferAll st).1.knowledge_base ∧ n.isCompOp .not = true ∧ n.arg 0 = a ∧
         a ∈ (inferAll st).1.knowledge_base ∧ a.isAtomE = true))) ∧
    (inferAll (addFact (addFact (mkEngine 100 false) pedroFeliz)
        (Expr.comp .not [pedroFeliz]))).2.contradictions =
      [(pedroFeliz, Expr.comp .not [pedroFeliz])] := by
  constructor
  · intro st a n
    exact mem_detectContradictions (inferRun st).1 a n
  · decide

/-- Claim C5: `infer_all` performs at most `max_iterations` passes, and when
the final knowledge base is still productive (no empty pass ever occurred)
the reported iteration count equals `max_iterations`. -/
theorem c5_termination (st : LogicEngine) :
    (inferAll st).2.iterations ≤ st.max_iterations ∧
    (applyAllRules (activeRules st.enable_conjunction) (inferAll st).1.knowledge_base ≠ [] →
      (inferAll st).2.iterations = st.max_iterations) := by
  constructor
  · have h := inferLoop_iterations_le (activeRules st.enable_conjunction)
      st.max_iterations st.knowledge_base st.derivation_chains 0
    rw [Nat.zero_add] at h
    exact h
  · intro hne
    have h := inferLoop_cap (activeRules st.enable_conjunction)
      st.max_iterations st.knowledge_base st.derivation_chains 0 hne
    rw [Nat.zero_add] at h
    exact h

def c5Engine : LogicEngine := addFact (mkEngine 0 false) (Expr.comp .and [atomA, atomB])

/-- Witness for C5: a cap of zero with a still-productive knowledge base
reports exactly `max_iterations = 0` iterations. -/
theorem c5_termination_witness :
    applyAllRules (activeRules c5Engine.enable_conjunction)
      (inferAll c5Engine).1.knowledge_base ≠ [] ∧
    (inferAll c5Engine).2.iterations = c5Engine.max_iterations :=
  ⟨by decide, (c5_termination c5Engine).2 (by decide)⟩

/-- Claim C4 (amended): when the first `infer_all` call terminates by an
empty pass (it reports fewer iterations than the cap, so the final knowledge
base is saturated), a second call with nothing added in between derives no
additional fact: knowledge base, derivation history and the returned
derivation list are unchanged. -/
theorem c4_fixpoint_after_saturation (st : LogicEngine)
    (h : (inferAll st).2.iterations < st.max_iterations) :
    (inferAll (inferAll st).1).1.knowledge_base = (inferAll st).1.knowledge_base ∧
    (inferAll (inferAll st).1).1.derivation_chains = (inferAll st).1.derivation_chains ∧
    (inferAll (inferAll st).1).2.derived_facts = (inferAll st).2.derived_facts := by
  have hsat : applyAllRules (activeRules st.enable_conjunction) (inferRun st).1 = [] := by
    apply inferLoop_lt_saturated (activeRules st.enable_conjunction)
      st.max_iterations st.knowledge_base st.derivation_chains 0
    rw [Nat.zero_add]
    exact h
  have h2 := inferLoop_saturated (activeRules st.enable_conjunction)
    st.max_iterations (inferRun st).1 (inferRun st).2.1 0 hsat
  exact ⟨h2.1, h2.2, h2.2⟩

def c4Engine : LogicEngine :=
  addFact (mkEngine 1 false) (Expr.comp .and [atomA, Expr.comp .and [atomB, atomC]])

/-- Counterexample to claim C4 as stated (for every engine state the second
call derives zero additional facts): with `max_iterations = 1` the first run
stops at the cap before saturation, and the second `infer_all` call derives
two further facts and grows the knowledge base. -/
theorem c4_counterexample :
    (inferAll c4Engine).2.derived_facts.length = 2 ∧
    (inferAll (inferAll c4Engine).1).2.derived_facts.length = 4 ∧
    (inferAll (inferAll c4Engine).1).1.knowledge_base ≠
      (inferAll c4Engine).1.knowledge_base := by
  refine ⟨by decide, by decide, by decide⟩

def c4SatEngine : LogicEngine := addFact (mkEngine 100 false) atomA

/-- Witness for the amended C4 at a saturating run. -/
theorem c4_fixpoint_witness :
    (inferAll c4SatEngine).2.iterations < c4SatEngine.max_iterations ∧
    ((inferAll (inferAll c4SatEngine).1).1.knowledge_base =
        (inferAll c4SatEngine).1.knowledge_base ∧
     (inferAll (inferAll c4SatEngine).1).1.derivation_chains =
        (inferAll c4SatEngine).1.derivation_chains ∧
     (inferAll (inferAll c4SatEngine).1).2.derived_facts =
        (inferAll c4SatEngine).2.derived_facts) :=
  ⟨by decide, c4_fixpoint_after_saturation c4SatEngine (by decide)⟩

/-- Claim C8: during one `infer_all` run the knowledge base only gains
elements (the final knowledge base extends the initial one), and, provided
every previously recorded derivation concludes inside the knowledge base
(true of every reachable engine state), every `DerivationChain` of the
returned result has its conclusion in the final knowledge base. -/
theorem c8_kb_monotonicity (st : LogicEngine)
    (h : ∀ c ∈ st.derivation_chains, c.conclusion ∈ st.knowledge_base) :
    (∃ t, (inferAll st).1.knowledge_base = st.knowledge_base ++ t) ∧
    (∀ c ∈ (inferAll st).2.derived_facts, c.conclusion ∈ (inferAll st).1.knowledge_base) := by
  constructor
  · exact inferLoop_kb_extend (activeRules st.enable_conjunction)
      st.max_iterations st.knowledge_base st.derivation_chains 0
  · exact inferLoop_conclusions (activeRules st.enable_conjunction)
      st.max_iterations st.knowledge_base st.derivation_chains 0 h

def c8Engine : LogicEngine := addFact (mkEngine 2 false) (Expr.comp .and [atomA, atomB])

/-- Witness for C8 on a concrete two-pass run. -/
theorem c8_kb_monotonicity_witness :
    (∀ c ∈ c8Engine.derivation_chains, c.conclusion ∈ c8Engine.knowledge_base) ∧
    ((∃ t, (inferAll c8Engine).1.knowledge_base = c8Engine.knowledge_base ++ t) ∧
     (∀ c ∈ (inferAll c8Engine).2.derived_facts,
        c.conclusion ∈ (inferAll c8Engine).1.knowledge_base)) :=
  ⟨by decide, c8_kb_monotonicity c8Engine (by decide)⟩

/-- Claim C9 (implicit): `infer_all` never resets the derivation history —
a second call's result still lists every chain of the first call's result
(the history grows by suffix extension), and only `clear()` empties it. -/
theorem c9_history_persistence (st : LogicEngine) :
    (∃ t, (inferAll (inferAll st).1).2.derived_facts =
      (inferAll st).2.derived_facts ++ t) ∧
    (∀ c ∈ (inferAll st).2.derived_facts,
      c ∈ (inferAll (inferAll st).1).2.derived_facts) ∧
    (clearEngine st).derivation_chains = [] := by
  refine ⟨?_, ?_, rfl⟩
  · exact inferLoop_chains_extend (activeRules st.enable_conjunction)
      st.max_iterations (inferRun st).1 (inferRun st).2.1 0
  · intro c hc
    obtain ⟨t, ht⟩ := inferLoop_chains_extend (activeRules st.enable_conjunction)
      st.max_iterations (inferRun st).1 (inferRun st).2.1 0
    show c ∈ (inferLoop (activeRules st.enable_conjunction)
      st.max_iterations (inferRun st).1 (inferRun st).2.1 0).2.1
    rw [ht]
    exact List.mem_append_left _ hc

def c9Chain : DerivationChain :=
  ⟨atomA, simpJust (Expr.comp .and [atomA, atomB]) atomA, 1⟩

/-- Witness for C9: a fact derived by the first call is still listed by the
second call's result. -/
theorem c9_history_witness :
    c9Chain ∈ (inferAll (inferAll c8Engine).1).2.derived_facts :=
  (c9_history_persistence c8Engine).2.1 c9Chain (by decide)

/-- Claim C10 (implicit): for an expression whose top-level operator is not
`IMPLIES` or `IFF` (any atom included), `add_rule` behaves exactly like
`add_fact`: the expression is recorded in `original_facts`, `original_rules`
is untouched, and the expression joins the knowledge base. -/
theorem c10_addRule_nonRule (st : LogicEngine) (e : Expr) (h : isRuleExpr e = false) :
    addRule st e = addFact st e ∧
    e ∈ (addRule st e).original_facts ∧
    (addRule st e).original_rules = st.original_rules ∧
    e ∈ (addRule st e).knowledge_base := by
  have heq : addRule st e = addFact st e := by
    unfold addRule addFact
    rw [h]
    rfl
  refine ⟨heq, ?_, ?_, ?_⟩
  · rw [heq]
    exact mem_setInsert_self st.original_facts e
  · rw [heq]
    rfl
  · rw [heq]
    exact mem_setInsert_self st.knowledge_base e

/-- Witness for C10 at a concrete atom. -/
theorem c10_addRule_nonRule_witness :
    isRuleExpr atomA = false ∧
    (addRule (mkEngine 100 false) atomA = addFact (mkEngine 100 false) atomA ∧
     atomA ∈ (addRule (mkEngine 100 false) atomA).original_facts ∧
     (addRule (mkEngine 100 false) atomA).original_rules = (mkEngine 100 false).original_rules ∧
     atomA ∈ (addRule (mkEngine 100 false) atomA).knowledge_base) :=
  ⟨by decide, c10_addRule_nonRule (mkEngine 100 false) atomA (by decide)⟩

/-- Scenario A of the spec with the rule written in the grammar the parser
actually accepts (`(X)estudia()` rather than `(X)estudia`). -/
def scenarioA : Except String (LogicEngine × InferenceResult) := do
  let st ← addFactStr (mkEngine 100 false) "(Pedro)IsA(estudiante)".data
  let st2 ← addRuleStr st "(X)IsA(estudiante) → (X)estudia()".data
  pure (inferAll st2)

/-- Counterexample to claim C2 as stated: the scenario's rule string
`"(X)IsA(estudiante) → (X)estudia"` does not tokenize (`(X)estudia` lacks
the object parentheses the atom regex requires), so `add_rule` raises a
parse error and the described run never happens. -/
theorem c2_counterexample :
    (do
      let st ← addFactStr (mkEngine 100 false) "(Pedro)IsA(estudiante)".data
      addRuleStr st "(X)IsA(estudiante) → (X)estudia".data) =
    (Except.error "Unexpected character" : Except String LogicEngine) := by
  decide

/-- Claim C2 (amended): from an empty engine,
`add_fact("(Pedro)IsA(estudiante)")` and
`add_rule("(X)IsA(estudiante) → (X)estudia()")` followed by `infer_all`
produce exactly one derivation chain, concluding `(Pedro)estudia()` at
depth 1, with `iterations = 2` (one productive pass, one empty pass). -/
theorem c2_scenario_a :
    scenarioA.map (fun p =>
      (p.2.derived_facts.map (fun c => (c.conclusion, c.depth)), p.2.iterations)) =
    Except.ok ([(Expr.atom "Pedro".data "estudia".data [], 1)], 2) := by
  decide

/-!
## Rule-order invariance of one pass (claim C7)

Rules read only the knowledge base to generate candidates; the shared
`new_facts` set is used purely for deduplication.  Hence the set of facts
emitted by one pass is the union of all rules' candidates minus the
knowledge base, independent of rule order.
-/

theorem filterEmit_mem (cands : List (Expr × Str)) (kb : List Expr) :
    ∀ (nf : List Expr) (e : Expr),
      (e ∈ (filterEmit cands kb nf).1.map Prod.fst ↔
        (e ∈ cands.map Prod.fst ∧ e ∉ kb ∧ e ∉ nf)) := by
  induction cands with
  | nil => intro nf e; simp [filterEmit]
  | cons p rest ih =>
    intro nf e
    obtain ⟨c, j⟩ := p
    by_cases hc : c ∈ kb ∨ c ∈ nf
    · rw [show filterEmit ((c, j) :: rest) kb nf = filterEmit rest kb nf from by
        simp [filterEmit, hc]]
      rw [ih nf e]
      simp only [List.map_cons, List.mem_cons]
      constructor
      · rintro ⟨h1, h2, h3⟩
        exact ⟨Or.inr h1, h2, h3⟩
      · rintro ⟨h1 | h1, h2, h3⟩
        · subst h1
          exact absurd hc (by tauto)
        · exact ⟨h1, h2, h3⟩
    · rw [show filterEmit ((c, j) :: rest) kb nf =
          ((c, j) :: (filterEmit rest kb (nf ++ [c])).1, (filterEmit rest kb (nf ++ [c])).2)
          from by simp [filterEmit, hc]]
      push_neg at hc
      simp only [List.map_cons, List.mem_cons]
      rw [ih (nf ++ [c]) e]
      simp only [List.mem_append, List.mem_singleton]
      constructor
      · rintro (rfl | ⟨h1, h2, h3⟩)
        · exact ⟨Or.inl rfl, hc.1, hc.2⟩
        · exact ⟨Or.inr h1, h2, fun hnf => h3 (Or.inl hnf)⟩
      · rintro ⟨rfl | h1, h2, h3⟩
        · exact Or.inl rfl
        · by_cases hec : e = c
          · exact Or.inl hec
          · exact Or.inr ⟨h1, h2, fun hor => by tauto⟩

theorem filterEmit_nf_mem (cands : List (Expr × Str)) (kb : List Expr) :
    ∀ (nf : List Expr) (e : Expr),
      (e ∈ (filterEmit cands kb nf).2 ↔
        (e ∈ nf ∨ (e ∈ cands.map Prod.fst ∧ e ∉ kb))) := by
  induction cands with
  | nil => intro nf e; simp [filterEmit]
  | cons p rest ih =>
    intro nf e
    obtain ⟨c, j⟩ := p
    by_cases hc : c ∈ kb ∨ c ∈ nf
    · rw [show filterEmit ((c, j) :: rest) kb nf = filterEmit rest kb nf from by
        simp [filterEmit, hc]]
      rw [ih nf e]
      simp only [List.map_cons, List.mem_cons]
      constructor
      · rintro (h | ⟨h1, h2⟩)
        · exact Or.inl h
        · exact Or.inr ⟨Or.inr h1, h2⟩
      · rintro (h | ⟨rfl | h1, h2⟩)
        · exact Or.inl h
        · rcases hc with h' | h'
          · exact absurd h' h2
          · exact Or.inl h'
        · exact Or.inr ⟨h1, h2⟩
    · rw [show (filterEmit ((c, j) :: rest) kb nf).2 = (filterEmit rest kb (nf ++ [c])).2
          from by simp [filterEmit, hc]]
      push_neg at hc
      rw [ih (nf ++ [c]) e]
      simp only [List.map_cons, List.mem_cons, List.mem_append, List.not_mem_nil, or_false]
      constructor
      · rintro ((h | rfl) | ⟨h1, h2⟩)
        · exact Or.inl h
        · exact Or.inr ⟨Or.inl rfl, hc.1⟩
        · exact Or.inr ⟨Or.inr h1, h2⟩
      · rintro (h | ⟨rfl | h1, h2⟩)
        · exact Or.inl (Or.inl h)
        · exact Or.inl (Or.inr rfl)
        · exact Or.inr ⟨h1, h2⟩

theorem passLoop_mem (kb : List Expr) :
    ∀ (rs : List Rule) (nf : List Expr) (e : Expr),
      (e ∈ (passLoop rs kb nf).map Prod.fst ↔
        (e ∉ kb ∧ e ∉ nf ∧ ∃ r ∈ rs, e ∈ (r.candidates kb).map Prod.fst)) := by
  intro rs
  induction rs with
  | nil => intro nf e; simp [passLoop]
  | cons r rest ih =>
    intro nf e
    rw [show passLoop (r :: rest) kb nf =
        (filterEmit (r.candidates kb) kb nf).1 ++
          passLoop rest kb (filterEmit (r.candidates kb) kb nf).2 from rfl]
    rw [List.map_append, List.mem_append, filterEmit_mem, ih, filterEmit_nf_mem]
    constructor
    · rintro (⟨h1, h2, h3⟩ | ⟨h1, h2, rr, hrr, hcc⟩)
      · exact ⟨h2, h3, r, List.mem_cons_self r rest, h1⟩
      · push_neg at h2
        exact ⟨h1, h2.1, rr, List.mem_cons_of_mem r hrr, hcc⟩
    · rintro ⟨h1, h2, rr, hrr, hcc⟩
      by_cases hr : e ∈ (r.candidates kb).map Prod.fst
      · exact Or.inl ⟨hr, h1, h2⟩
      · rcases List.mem_cons.mp hrr with rfl | hrr'
        · exact absurd hcc hr
        · refine Or.inr ⟨h1, ?_, rr, hrr', hcc⟩
          rintro (h | ⟨h', _⟩)
          · exact h2 h
          · exact hr h'

/-- Claim C7: within one pass, the set of facts derived by
`apply_all_rules` is invariant under any permutation of the rule list; the
rule order can only affect which rule supplies a fact's justification. -/
theorem c7_rule_order_invariance (c : Bool) (rs : List Rule)
    (hperm : rs.Perm (activeRules c)) (kb : List Expr) (e : Expr) :
    (e ∈ (applyAllRules rs kb).map Prod.fst ↔
     e ∈ (applyAllRules (activeRules c) kb).map Prod.fst) := by
  rw [applyAllRules, applyAllRules, passLoop_mem, passLoop_mem]
  constructor
  · rintro ⟨h1, h2, r, hr, hc⟩
    exact ⟨h1, h2, r, hperm.mem_iff.mp hr, hc⟩
  · rintro ⟨h1, h2, r, hr, hc⟩
    exact ⟨h1, h2, r, hperm.mem_iff.mpr hr, hc⟩

/-- The manager's rule list with its first two rules exchanged. -/
def c7Swapped : List Rule :=
  [simplification, modusPonens, modusTollens, biconditionalElimination,
   disjunctiveSyllogism, hypotheticalSyllogism, resolution]

/-- Witness for C7: the swapped order derives (a)P() from the conjunction
exactly when the original order does. -/
theorem c7_rule_order_witness :
    (atomA ∈ (applyAllRules c7Swapped [Expr.comp .and [atomA, atomB]]).map Prod.fst ↔
     atomA ∈ (applyAllRules (activeRules false)
        [Expr.comp .and [atomA, atomB]]).map Prod.fst) :=
  c7_rule_order_invariance false c7Swapped
    (by simpa [activeRules, c7Swapped] using
      (List.Perm.swap modusPonens simplification
        [modusTollens, biconditionalElimination, disjunctiveSyllogism,
         hypotheticalSyllogism, resolution]))
    [Expr.comp .and [atomA, atomB]] atomA

/-!
## String lemmas for the parser round trip (claims C1 and C3)
-/

/-- Whether a string starts with a whitespace character. -/
def headIsWs : Str → Bool
  | [] => false
  | c :: _ => c.isWhitespace

/-- Well-formed relation identifier: `[A-Za-z_][A-Za-z0-9_]*`. -/
def relWF : Str → Bool
  | [] => false
  | c :: cs => isRelStart c && cs.all isRelChar

/-- A term (subject or object) the atom grammar can reproduce: nonempty,
free of parentheses, and not starting or ending in whitespace. -/
def wfTerm (t : Str) : Prop :=
  t ≠ [] ∧ (∀ c ∈ t, c ≠ '(' ∧ c ≠ ')') ∧ headIsWs t = false ∧ headIsWs t.reverse = false

/-- An object additionally may not contain commas (the object list is
comma-separated). -/
def wfObj (t : Str) : Prop :=
  wfTerm t ∧ ∀ c ∈ t, c ≠ ','

/-- A parser-reproducible atom. -/
def wfAtomE (s r : Str) (os : List Str) : Prop :=
  wfTerm s ∧ relWF r = true ∧ ∀ o ∈ os, wfObj o

instance (t : Str) : Decidable (wfTerm t) := by unfold wfTerm; infer_instance

instance (t : Str) : Decidable (wfObj t) := by unfold wfObj; infer_instance

instance (s r : Str) (os : List Str) : Decidable (wfAtomE s r os) := by
  unfold wfAtomE; infer_instance

theorem dropWhile_ws_eq_self (l : Str) (h : headIsWs l = false) :
    l.dropWhile Char.isWhitespace = l := by
  cases l with
  | nil => rfl
  | cons c t =>
    simp only [headIsWs] at h
    simp [List.dropWhile_cons, h]

theorem strip_eq_self (l : Str) (h1 : headIsWs l = false) (h2 : headIsWs l.reverse = false) :
    strip l = l := by
  unfold strip
  rw [dropWhile_ws_eq_self l h1, dropWhile_ws_eq_self l.reverse h2, List.reverse_reverse]

theorem strip_cons_ws (c : Char) (l : Str) (h : c.isWhitespace = true) :
    strip (c :: l) = strip l := by
  unfold strip
  rw [List.dropWhile_cons, if_pos h]

theorem isRelStart_not_ws (c : Char) (h : isRelStart c = true) : c.isWhitespace = false := by
  by_contra hws
  rw [Bool.not_eq_false] at hws
  simp only [Char.isWhitespace, Bool.or_eq_true, decide_eq_true_eq] at hws
  rcases hws with ((rfl | rfl) | rfl) | rfl <;> exact absurd h (by decide)

theorem isRelChar_not_ws (c : Char) (h : isRelChar c = true) : c.isWhitespace = false := by
  by_contra hws
  rw [Bool.not_eq_false] at hws
  simp only [Char.isWhitespace, Bool.or_eq_true, decide_eq_true_eq] at hws
  rcases hws with ((rfl | rfl) | rfl) | rfl <;> exact absurd h (by decide)

theorem headIsWs_false_of_all (l : Str) (h : ∀ c ∈ l, c.isWhitespace = false) :
    headIsWs l = false ∧ headIsWs l.reverse = false := by
  constructor
  · cases l with
    | nil => rfl
    | cons c t => exact h c (List.mem_cons_self c t)
  · cases hr : l.reverse with
    | nil => rfl
    | cons c t =>
      have : c ∈ l.reverse := by rw [hr]; exact List.mem_cons_self c t
      exact h c (List.mem_reverse.mp this)

theorem takeWhile_append_stop (p : Char → Bool) (c : Char) (t : Str)
    (hc : p c = false) :
    ∀ l : Str, (∀ x ∈ l, p x = true) → (l ++ c :: t).takeWhile p = l := by
  intro l
  induction l with
  | nil => intro _; simp [List.takeWhile_cons, hc]
  | cons x xs ih =>
    intro hall
    have hx := hall x (List.mem_cons_self x xs)
    simp only [List.cons_append, List.takeWhile_cons, hx, if_true]
    rw [ih (fun y hy => hall y (List.mem_cons_of_mem x hy))]

theorem dropWhile_append_stop (p : Char → Bool) (c : Char) (t : Str)
    (hc : p c = false) :
    ∀ l : Str, (∀ x ∈ l, p x = true) → (l ++ c :: t).dropWhile p = c :: t := by
  intro l
  induction l with
  | nil => intro _; simp [List.dropWhile_cons, hc]
  | cons x xs ih =>
    intro hall
    have hx := hall x (List.mem_cons_self x xs)
    simp only [List.cons_append, List.dropWhile_cons, hx, if_true]
    exact ih (fun y hy => hall y (List.mem_cons_of_mem x hy))

theorem mem_joinSep (sep : Str) :
    ∀ (xs : List Str) (c : Char), c ∈ joinSep sep xs → c ∈ sep ∨ ∃ x ∈ xs, c ∈ x := by
  intro xs
  induction xs with
  | nil => intro c h; simp [joinSep] at h
  | cons x rest ih =>
    intro c h
    cases rest with
    | nil =>
      simp only [joinSep] at h
      exact Or.inr ⟨x, List.mem_cons_self x [], h⟩
    | cons y t =>
      rw [show joinSep sep (x :: y :: t) = x ++ sep ++ joinSep sep (y :: t) from rfl] at h
      rcases List.mem_append.mp h with h1 | h1
      · rcases List.mem_append.mp h1 with h2 | h2
        · exact Or.inr ⟨x, List.mem_cons_self x (y :: t), h2⟩
        · exact Or.inl h2
      · rcases ih c h1 with h2 | ⟨z, hz, hc⟩
        · exact Or.inl h2
        · exact Or.inr ⟨z, List.mem_cons_of_mem x hz, hc⟩

theorem joinSep_ne_nil (sep : Str) (xs : List Str) (hne : xs ≠ [])
    (hx : ∀ x ∈ xs, x ≠ []) : joinSep sep xs ≠ [] := by
  cases xs with
  | nil => exact absurd rfl hne
  | cons x rest =>
    cases rest with
    | nil => exact hx x (List.mem_cons_self x [])
    | cons y t =>
      rw [show joinSep sep (x :: y :: t) = x ++ sep ++ joinSep sep (y :: t) from rfl]
      have := hx x (List.mem_cons_self x (y :: t))
      intro hcontra
      rcases List.append_eq_nil.mp hcontra with ⟨h1, _⟩
      rcases List.append_eq_nil.mp h1 with ⟨h2, _⟩
      exact this h2

theorem splitChar_ne_nil (sep : Char) : ∀ l : Str, splitChar sep l ≠ [] := by
  intro l
  induction l with
  | nil => simp [splitChar]
  | cons c t ih =>
    unfold splitChar
    split
    · simp
    · cases h : splitChar sep t with
      | nil => exact absurd h ih
      | cons a b => simp [h]

theorem splitChar_no_sep (sep : Char) :
    ∀ l : Str, (∀ c ∈ l, c ≠ sep) → splitChar sep l = [l] := by
  intro l
  induction l with
  | nil => intro _; rfl
  | cons c t ih =>
    intro h
    have hc : c ≠ sep := (h c (List.mem_cons_self c t))
    unfold splitChar
    rw [if_neg hc, ih (fun x hx => h x (List.mem_cons_of_mem c hx))]

theorem splitChar_append_sep (sep : Char) (t : Str) :
    ∀ l : Str, (∀ c ∈ l, c ≠ sep) → splitChar sep (l ++ sep :: t) = l :: splitChar sep t := by
  intro l
  induction l with
  | nil => intro _; simp [splitChar]
  | cons c l' ih =>
    intro h
    have hc : c ≠ sep := (h c (List.mem_cons_self c l'))
    have ih' := ih (fun x hx => h x (List.mem_cons_of_mem c hx))
    rw [List.cons_append]
    conv_lhs => rw [splitChar]
    rw [if_neg hc, ih']

theorem splitChar_cons_ne (sep c : Char) (l : Str) (hc : c ≠ sep) :
    ∀ h t, splitChar sep l = h :: t → splitChar sep (c :: l) = (c :: h) :: t := by
  intro h t hsplit
  unfold splitChar
  rw [if_neg hc, hsplit]

/-- Splitting the `", "`-joined object list on commas and stripping each part
recovers the objects. -/
theorem split_join (os : List Str) (hne : os ≠ [])
    (h : ∀ o ∈ os, (∀ c ∈ o, c ≠ ',') ∧ strip o = o) :
    (splitChar ',' (joinSep ", ".data os)).map strip = os := by
  induction os with
  | nil => exact absurd rfl hne
  | cons o rest ih =>
    cases rest with
    | nil =>
      have ho := h o (List.mem_cons_self o [])
      rw [show joinSep ", ".data [o] = o from rfl]
      rw [splitChar_no_sep ',' o ho.1]
      simp [ho.2]
    | cons o2 t =>
      have ho := h o (List.mem_cons_self o (o2 :: t))
      have hrest : ∀ x ∈ o2 :: t, (∀ c ∈ x, c ≠ ',') ∧ strip x = x :=
        fun x hx => h x (List.mem_cons_of_mem o hx)
      have ihr := ih (by simp) hrest
      have hj : joinSep ", ".data (o :: o2 :: t) =
          o ++ ',' :: ' ' :: joinSep ", ".data (o2 :: t) := by
        show o ++ ", ".data ++ joinSep ", ".data (o2 :: t) = _
        rw [List.append_assoc]
        rfl
      rw [hj]
      rw [splitChar_append_sep ',' (' ' :: joinSep ", ".data (o2 :: t)) o ho.1]
      cases hsp : splitChar ',' (joinSep ", ".data (o2 :: t)) with
      | nil => exact absurd hsp (splitChar_ne_nil ',' _)
      | cons hh tt =>
        rw [splitChar_cons_ne ',' ' ' _ (by decide) hh tt hsp]
        rw [hsp] at ihr
        simp only [List.map_cons] at ihr ⊢
        rw [strip_cons_ws ' ' hh (by decide)]
        rw [ho.2]
        exact congrArg (o :: ·) ihr

theorem scanAtom_renderAtom (s : Str) (rc : Char) (rt : Str) (os : List Str) (cs : List Char)
    (hsne : s ≠ []) (hsp : ∀ c ∈ s, c ≠ '(' ∧ c ≠ ')')
    (hrc : isRelStart rc = true) (hrt : ∀ c ∈ rt, isRelChar c = true)
    (hjo : ∀ c ∈ joinSep ", ".data os, c ≠ ')') :
    scanAtom (renderAtom s (rc :: rt) os ++ cs) =
      some (s, rc :: rt, joinSep ", ".data os, cs) := by
  have hform : renderAtom s (rc :: rt) os ++ cs =
      '(' :: (s ++ ')' :: (rc :: (rt ++ '(' :: (joinSep ", ".data os ++ ')' :: cs)))) := by
    simp [renderAtom, List.append_assoc]
  rw [hform]
  have h1 : (s ++ ')' :: (rc :: (rt ++ '(' :: (joinSep ", ".data os ++ ')' :: cs)))).takeWhile
      (· ≠ ')') = s :=
    takeWhile_append_stop _ _ _ (by decide) s (fun x hx => decide_eq_true (hsp x hx).2)
  have h2 : (s ++ ')' :: (rc :: (rt ++ '(' :: (joinSep ", ".data os ++ ')' :: cs)))).dropWhile
      (· ≠ ')') = ')' :: (rc :: (rt ++ '(' :: (joinSep ", ".data os ++ ')' :: cs))) :=
    dropWhile_append_stop _ _ _ (by decide) s (fun x hx => decide_eq_true (hsp x hx).2)
  have h3 : (rt ++ '(' :: (joinSep ", ".data os ++ ')' :: cs)).takeWhile isRelChar = rt :=
    takeWhile_append_stop _ _ _ (by decide) rt hrt
  have h4 : (rt ++ '(' :: (joinSep ", ".data os ++ ')' :: cs)).dropWhile isRelChar =
      '(' :: (joinSep ", ".data os ++ ')' :: cs) :=
    dropWhile_append_stop _ _ _ (by decide) rt hrt
  have h5 : (joinSep ", ".data os ++ ')' :: cs).takeWhile (· ≠ ')') = joinSep ", ".data os :=
    takeWhile_append_stop _ _ _ (by decide) _ (fun x hx => decide_eq_true (hjo x hx))
  have h6 : (joinSep ", ".data os ++ ')' :: cs).dropWhile (· ≠ ')') = ')' :: cs :=
    dropWhile_append_stop _ _ _ (by decide) _ (fun x hx => decide_eq_true (hjo x hx))
  simp only [scanAtom, h1, h2, h3, h4, h5, h6, if_neg hsne, hrc, if_true]

theorem length_dropWhile_le (p : Char → Bool) :
    ∀ l : Str, (l.dropWhile p).length ≤ l.length := by
  intro l
  induction l with
  | nil => simp
  | cons c t ih =>
    rw [List.dropWhile_cons]
    split
    · exact Nat.le_trans ih (Nat.le_succ _)
    · exact Nat.le_refl _

theorem scanAtom_rest_length :
    ∀ (cs : List Char) (g1 g2 g3 : Str) (rest : List Char),
      scanAtom cs = some (g1, g2, g3, rest) → rest.length < cs.length := by
  intro cs g1 g2 g3 rest h
  simp only [scanAtom] at h
  split at h
  · rename_i rest0
    split at h
    · exact absurd h (by simp)
    · split at h
      · rename_i rest2 heq1
        split at h
        · rename_i c rest3
          split at h
          · split at h
            · rename_i rest5 heq4
              split at h
              · rename_i rest7 heq6
                rw [Option.some.injEq, Prod.mk.injEq, Prod.mk.injEq, Prod.mk.injEq] at h
                obtain ⟨-, -, -, hr⟩ := h
                subst hr
                have d1 := length_dropWhile_le (· ≠ ')') rest0
                rw [heq1] at d1
                have d2 := length_dropWhile_le isRelChar rest3
                rw [heq4] at d2
                have d3 := length_dropWhile_le (· ≠ ')') rest5
                rw [heq6] at d3
                simp only [List.length_cons] at d1 d2 d3 ⊢
                omega
              · exact absurd h (by simp)
            · exact absurd h (by simp)
          · exact absurd h (by simp)
        · exact absurd h (by simp)
      · exact absurd h (by simp)
  · exact absurd h (by simp)

theorem tryAtomToken_some (cs : List Char) (g1 g2 g3 : Str) (rest : List Char)
    (h : scanAtom cs = some (g1, g2, g3, rest)) :
    tryAtomToken cs = some ('(' :: g1 ++ ')' :: g2 ++ '(' :: g3 ++ [')'], rest) := by
  unfold tryAtomToken
  rw [h]
  rfl

theorem tryAtomToken_none (cs : List Char) (h : scanAtom cs = none) :
    tryAtomToken cs = none := by
  unfold tryAtomToken
  rw [h]
  rfl

theorem tokLoop_mono : ∀ (f g : Nat) (cs : List Char),
    cs.length ≤ f → cs.length ≤ g → tokLoop f cs = tokLoop g cs := by
  intro f
  induction f with
  | zero =>
    intro g cs hf _
    have : cs = [] := List.length_eq_zero.mp (Nat.le_zero.mp hf)
    subst this
    simp [tokLoop]
  | succ f' ih =>
    intro g cs hf hg
    cases cs with
    | nil => simp [tokLoop]
    | cons c t =>
      cases g with
      | zero => simp at hg
      | succ g' =>
        simp only [List.length_cons, Nat.succ_le_succ_iff] at hf hg
        by_cases hws : c.isWhitespace
        · simp only [tokLoop, hws, if_true]
          exact ih g' t hf hg
        · cases hat : tryAtomToken (c :: t) with
          | some p =>
            obtain ⟨tok, rest⟩ := p
            have hrl : rest.length ≤ f' := by
              cases hsc : scanAtom (c :: t) with
              | none => rw [tryAtomToken_none _ hsc] at hat; cases hat
              | some q =>
                obtain ⟨q1, q2, q3, q4⟩ := q
                rw [tryAtomToken_some _ _ _ _ _ hsc] at hat
                rw [Option.some.injEq, Prod.mk.injEq] at hat
                have := scanAtom_rest_length _ _ _ _ _ hsc
                rw [hat.2] at this
                simp only [List.length_cons] at this
                omega
            have hrg : rest.length ≤ g' := by
              cases hsc : scanAtom (c :: t) with
              | none => rw [tryAtomToken_none _ hsc] at hat; cases hat
              | some q =>
                obtain ⟨q1, q2, q3, q4⟩ := q
                rw [tryAtomToken_some _ _ _ _ _ hsc] at hat
                rw [Option.some.injEq, Prod.mk.injEq] at hat
                have := scanAtom_rest_length _ _ _ _ _ hsc
                rw [hat.2] at this
                simp only [List.length_cons] at this
                omega
            simp only [tokLoop, hws, Bool.false_eq_true, if_false, hat]
            rw [ih g' rest hrl hrg]
          | none =>
            cases t with
            | nil =>
              simp only [tokLoop, hws, Bool.false_eq_true, if_false, hat]
            | cons c2 t2 =>
              cases hnt : normTwo c c2 with
              | some tk =>
                simp only [tokLoop, hws, Bool.false_eq_true, if_false, hat, hnt]
                simp only [List.length_cons] at hf hg
                rw [ih g' t2 (by omega) (by omega)]
              | none =>
                simp only [tokLoop, hws, Bool.false_eq_true, if_false, hat, hnt]
                cases hno : normOne c with
                | some tk =>
                  simp only [hno]
                  rw [ih g' (c2 :: t2) hf hg]
                | none => simp only [hno]

theorem tokenize_cons_ws (c : Char) (cs : List Char) (h : c.isWhitespace = true) :
    tokenize (c :: cs) = tokenize cs := by
  unfold tokenize
  simp only [List.length_cons, tokLoop, h, if_true]

theorem tokenize_atom_step (cs : List Char) (g1 g2 g3 : Str) (rest : List Char)
    (h : scanAtom cs = some (g1, g2, g3, rest)) :
    tokenize cs = (tokenize rest).map (('(' :: g1 ++ ')' :: g2 ++ '(' :: g3 ++ [')']) :: ·) := by
  have hlen := scanAtom_rest_length cs g1 g2 g3 rest h
  cases cs with
  | nil => simp [scanAtom] at h
  | cons c t =>
    have hc : c = '(' := by
      by_contra hcc
      unfold scanAtom at h
      split at h
      · rename_i rest0 heq
        injection heq with h1 h2
        exact hcc h1
      · exact absurd h (by simp)
    subst hc
    have htok := tryAtomToken_some ('(' :: t) g1 g2 g3 rest h
    have hws : ('(' : Char).isWhitespace = false := by decide
    unfold tokenize
    simp only [List.length_cons, tokLoop, hws, Bool.false_eq_true, if_false, htok]
    simp only [List.length_cons] at hlen
    rw [tokLoop_mono t.length rest.length rest (by omega) (Nat.le_refl _)]

theorem tokenize_two_step (a b : Char) (cs : List Char) (tk : Str)
    (hws : a.isWhitespace = false) (hatom : scanAtom (a :: b :: cs) = none)
    (htwo : normTwo a b = some tk) :
    tokenize (a :: b :: cs) = (tokenize cs).map (tk :: ·) := by
  have hat := tryAtomToken_none _ hatom
  unfold tokenize
  simp only [List.length_cons, tokLoop, hws, Bool.false_eq_true, if_false, hat, htwo]
  rw [tokLoop_mono (cs.length + 1) cs.length cs (by omega) (Nat.le_refl _)]

theorem tokenize_one_step (a : Char) (cs : List Char) (tk : Str)
    (hws : a.isWhitespace = false) (hatom : scanAtom (a :: cs) = none)
    (htwo : ∀ b cs2, cs = b :: cs2 → normTwo a b = none)
    (hone : normOne a = some tk) :
    tokenize (a :: cs) = (tokenize cs).map (tk :: ·) := by
  have hat := tryAtomToken_none _ hatom
  cases cs with
  | nil =>
    unfold tokenize
    simp only [List.length_cons, List.length_nil, tokLoop, hws, Bool.false_eq_true,
      if_false, hat, hone]
  | cons b cs2 =>
    have hnt := htwo b cs2 rfl
    unfold tokenize
    simp only [List.length_cons, tokLoop, hws, Bool.false_eq_true, if_false, hat, hnt, hone]

theorem tokenize_err_step (a : Char) (cs : List Char)
    (hws : a.isWhitespace = false) (hatom : scanAtom (a :: cs) = none)
    (htwo : ∀ b cs2, cs = b :: cs2 → normTwo a b = none)
    (hone : normOne a = none) :
    tokenize (a :: cs) = .error "Unexpected character" := by
  have hat := tryAtomToken_none _ hatom
  cases cs with
  | nil =>
    unfold tokenize
    simp only [List.length_cons, List.length_nil, tokLoop, hws, Bool.false_eq_true,
      if_false, hat, hone]
  | cons b cs2 =>
    have hnt := htwo b cs2 rfl
    unfold tokenize
    simp only [List.length_cons, tokLoop, hws, Bool.false_eq_true, if_false, hat, hnt, hone]

theorem wfAtom_scan (s r : Str) (os : List Str) (cs : List Char) (hwf : wfAtomE s r os) :
    scanAtom (renderAtom s r os ++ cs) = some (s, r, joinSep ", ".data os, cs) := by
  obtain ⟨⟨hsne, hsp, _, _⟩, hr, hos⟩ := hwf
  cases r with
  | nil => simp [relWF] at hr
  | cons rc rt =>
    simp only [relWF, Bool.and_eq_true, List.all_eq_true] at hr
    refine scanAtom_renderAtom s rc rt os cs hsne hsp hr.1 hr.2 ?_
    intro c hc
    rcases mem_joinSep ", ".data os c hc with h1 | ⟨x, hx, hcx⟩
    · rcases List.mem_cons.mp h1 with rfl | h2
      · decide
      · rcases List.mem_cons.mp h2 with rfl | h3
        · decide
        · simp at h3
    · exact ((hos x hx).1.2.1 c hcx).2

theorem tokenize_renderAtom (s r : Str) (os : List Str) (cs : List Char)
    (hwf : wfAtomE s r os) :
    tokenize (renderAtom s r os ++ cs) = (tokenize cs).map (renderAtom s r os :: ·) := by
  rw [tokenize_atom_step (renderAtom s r os ++ cs) s r (joinSep ", ".data os) cs
    (wfAtom_scan s r os cs hwf)]
  rfl

theorem relWF_not_ws (r : Str) (h : relWF r = true) : ∀ c ∈ r, c.isWhitespace = false := by
  cases r with
  | nil => intro c hc; simp at hc
  | cons rc rt =>
    simp only [relWF, Bool.and_eq_true, List.all_eq_true] at h
    intro c hc
    rcases List.mem_cons.mp hc with rfl | hc2
    · exact isRelStart_not_ws c h.1
    · exact isRelChar_not_ws c (h.2 c hc2)

theorem headIsWs_append (l x : Str) (h : l ≠ []) : headIsWs (l ++ x) = headIsWs l := by
  cases l with
  | nil => exact absurd rfl h
  | cons c t => rfl

theorem joinObjs_edges (os : List Str) (hne : os ≠ []) (hos : ∀ o ∈ os, wfObj o) :
    headIsWs (joinSep ", ".data os) = false ∧
    headIsWs (joinSep ", ".data os).reverse = false := by
  induction os with
  | nil => exact absurd rfl hne
  | cons o rest ih =>
    have ho := hos o (List.mem_cons_self o rest)
    obtain ⟨⟨hone, _, hoh, hot⟩, _⟩ := ho
    cases rest with
    | nil => exact ⟨hoh, hot⟩
    | cons o2 t =>
      have hrest : ∀ x ∈ o2 :: t, wfObj x := fun x hx => hos x (List.mem_cons_of_mem o hx)
      have ihr := ih (by simp) hrest
      have hjne : joinSep ", ".data (o2 :: t) ≠ [] :=
        joinSep_ne_nil ", ".data (o2 :: t) (by simp)
          (fun x hx => (hrest x hx).1.1)
      have hshape : joinSep ", ".data (o :: o2 :: t) =
          o ++ (", ".data ++ joinSep ", ".data (o2 :: t)) := by
        show o ++ ", ".data ++ joinSep ", ".data (o2 :: t) = _
        rw [List.append_assoc]
      constructor
      · rw [hshape, headIsWs_append o _ hone]
        exact hoh
      · rw [hshape, List.reverse_append, headIsWs_append _ _ (by simp [hjne]),
          List.reverse_append, headIsWs_append _ _ (by simp [hjne])]
        exact ihr.2

theorem parseAtomToken_renderAtom (s r : Str) (os : List Str) (hwf : wfAtomE s r os) :
    parseAtomToken (renderAtom s r os) = .ok (.atom s r os) := by
  have hscan := wfAtom_scan s r os [] hwf
  rw [List.append_nil] at hscan
  obtain ⟨⟨hsne, hsp, hsh, hst⟩, hr, hos⟩ := hwf
  have hss : strip s = s := strip_eq_self s hsh hst
  have hrws := headIsWs_false_of_all r (relWF_not_ws r hr)
  have hrr : strip r = r := strip_eq_self r hrws.1 hrws.2
  have hnotsub : ¬ (('(' ∈ s) ∨ (')' ∈ s)) := by
    rintro (h | h)
    · exact (hsp _ h).1 rfl
    · exact (hsp _ h).2 rfl
  cases os with
  | nil =>
    simp only [parseAtomToken, hscan, hss, hrr]
    rw [if_neg hnotsub]
    simp [joinSep, strip]
  | cons o rest =>
    have hedges := joinObjs_edges (o :: rest) (by simp) hos
    have hjoeq : strip (joinSep ", ".data (o :: rest)) = joinSep ", ".data (o :: rest) :=
      strip_eq_self _ hedges.1 hedges.2
    have hjone : joinSep ", ".data (o :: rest) ≠ [] :=
      joinSep_ne_nil ", ".data (o :: rest) (by simp) (fun x hx => (hos x hx).1.1)
    have hsplit : (splitChar ',' (joinSep ", ".data (o :: rest))).map strip = o :: rest := by
      apply split_join (o :: rest) (by simp)
      intro x hx
      refine ⟨(hos x hx).2, ?_⟩
      obtain ⟨⟨_, _, h1, h2⟩, _⟩ := hos x hx
      exact strip_eq_self x h1 h2
    have hany : ((o :: rest).any (fun x => decide (('(' ∈ x) ∨ (')' ∈ x)))) = false := by
      rw [List.any_eq_false]
      intro x hx
      simp only [decide_eq_true_eq]
      rintro (h | h)
      · exact ((hos x hx).1.2.1 _ h).1 rfl
      · exact ((hos x hx).1.2.1 _ h).2 rfl
    simp only [parseAtomToken, hscan, hss, hrr, hjoeq, hsplit]
    rw [if_neg hnotsub, if_pos hjone, hany]
    simp

/-- `k`-fold application of `NOT` (the only compound shape whose rendering
the grammar can re-read, since binary operators render with grouping
parentheses the parser rejects). -/
def notTower : Nat → Expr → Expr
  | 0, e => e
  | k + 1, e => .comp .not [notTower k e]

theorem render_notTower (k : Nat) (s r : Str) (os : List Str) :
    render (notTower k (.atom s r os)) = List.replicate k '¬' ++ renderAtom s r os := by
  induction k with
  | zero => rfl
  | succ m ih =>
    rw [show notTower (m + 1) (.atom s r os) = .comp .not [notTower m (.atom s r os)] from rfl]
    rw [show render (.comp .not [notTower m (.atom s r os)]) =
        '¬' :: render (notTower m (.atom s r os)) from rfl]
    rw [ih, List.replicate_succ, List.cons_append]

theorem renderAtom_cons (s r : Str) (os : List Str) :
    renderAtom s r os = '(' :: (s ++ ')' :: (r ++ '(' :: (joinSep ", ".data os ++ [')']))) := by
  simp [renderAtom, List.append_assoc]

theorem renderAtom_concat (s r : Str) (os : List Str) :
    renderAtom s r os = ('(' :: s ++ ')' :: r ++ '(' :: joinSep ", ".data os) ++ [')'] := by
  simp [renderAtom, List.append_assoc]

theorem renderAtom_ne_not (s r : Str) (os : List Str) : renderAtom s r os ≠ "¬".data := by
  intro h
  rw [renderAtom_cons] at h
  injection h with h1 _
  exact absurd h1 (by decide)

theorem tokenize_notTower (k : Nat) (s r : Str) (os : List Str) (hwf : wfAtomE s r os) :
    tokenize (render (notTower k (.atom s r os))) =
      .ok (List.replicate k "¬".data ++ [renderAtom s r os]) := by
  induction k with
  | zero =>
    rw [show render (notTower 0 (.atom s r os)) = renderAtom s r os from rfl]
    have h := tokenize_renderAtom s r os [] hwf
    rw [List.append_nil] at h
    rw [h]
    rfl
  | succ m ih =>
    rw [render_notTower (m + 1) s r os, List.replicate_succ, List.cons_append,
        ← render_notTower m s r os]
    have hatom : scanAtom ('¬' :: render (notTower m (.atom s r os))) = none := rfl
    have hhead : ∀ b cs2, render (notTower m (.atom s r os)) = b :: cs2 →
        normTwo '¬' b = none := by
      intro b cs2 heq
      have hb : b = '¬' ∨ b = '(' := by
        cases m with
        | zero =>
          rw [render_notTower 0 s r os, List.replicate, List.nil_append,
            renderAtom_cons] at heq
          injection heq with h1 _
          exact Or.inr h1.symm
        | succ m2 =>
          rw [render_notTower (m2 + 1) s r os, List.replicate_succ, List.cons_append] at heq
          injection heq with h1 _
          exact Or.inl h1.symm
      rcases hb with rfl | rfl
      · decide
      · decide
    rw [tokenize_one_step '¬' _ "¬".data (by decide) hatom hhead (by decide), ih]
    rw [List.replicate_succ, List.cons_append]
    rfl

theorem parseNotTk_tower (k : Nat) (tok : Str) (e : Expr)
    (hne : tok ≠ "¬".data) (h : parseAtomToken tok = .ok e) :
    parseNotTk (List.replicate k "¬".data ++ [tok]) = .ok (notTower k e, []) := by
  induction k with
  | zero =>
    rw [List.replicate, List.nil_append]
    unfold parseNotTk
    rw [if_neg hne, h]
    rfl
  | succ m ih =>
    rw [List.replicate_succ, List.cons_append]
    unfold parseNotTk
    rw [if_pos rfl, ih]
    rfl

theorem parseIff_single (ts : List Str) (e : Expr) (h : parseNotTk ts = .ok (e, [])) :
    parseIff ts = .ok (e, []) := by
  have hand : parseAnd ts = .ok (e, []) := by
    unfold parseAnd
    rw [h]
    rfl
  have hor : parseOr ts = .ok (e, []) := by
    unfold parseOr
    rw [hand]
    rfl
  have himp : parseImplies ts = .ok (e, []) := by
    unfold parseImplies
    rw [hor]
    rfl
  unfold parseIff
  rw [himp]
  rfl

theorem render_tower_edges (k : Nat) (s r : Str) (os : List Str) :
    headIsWs (render (notTower k (.atom s r os))) = false ∧
    headIsWs (render (notTower k (.atom s r os))).reverse = false := by
  rw [render_notTower k s r os]
  constructor
  · cases k with
    | zero =>
      rw [List.replicate, List.nil_append, renderAtom_cons]
      rfl
    | succ m =>
      rw [List.replicate_succ, List.cons_append]
      rfl
  · rw [renderAtom_concat, List.reverse_append, List.reverse_append]
    rw [show (List.reverse [')']) = [')'] from rfl, List.cons_append]
    rfl

/-- Claim C1 (amended): the parser round trip holds exactly on the fragment
the grammar can re-read — any well-formed atom under any number of top-level
negations: parsing the canonical rendering returns the same expression.  (It
fails for every compound with a binary operator, whose rendering is wrapped
in grouping parentheses the grammar lacks; see the counterexample.) -/
theorem c1_roundtrip_not_atom (k : Nat) (s r : Str) (os : List Str)
    (hwf : wfAtomE s r os) :
    parseText (render (notTower k (.atom s r os))) = .ok (notTower k (.atom s r os)) := by
  have hedges := render_tower_edges k s r os
  unfold parseText
  rw [strip_eq_self _ hedges.1 hedges.2, tokenize_notTower k s r os hwf]
  obtain ⟨hd, tl, hL⟩ : ∃ hd tl,
      List.replicate k "¬".data ++ [renderAtom s r os] = hd :: tl := by
    cases k with
    | zero => exact ⟨renderAtom s r os, [], by simp⟩
    | succ m => exact ⟨"¬".data, List.replicate m "¬".data ++ [renderAtom s r os], by
        rw [List.replicate_succ, List.cons_append]⟩
  rw [hL]
  have hiff : parseIff (hd :: tl) = .ok (notTower k (.atom s r os), []) := by
    rw [← hL]
    exact parseIff_single _ _ (parseNotTk_tower k (renderAtom s r os) (.atom s r os)
      (renderAtom_ne_not s r os) (parseAtomToken_renderAtom s r os hwf))
  show (match parseIff (hd :: tl) with
    | .ok (e, []) => Except.ok e
    | .ok (_, _ :: _) => Except.error "Unexpected token"
    | .error m => Except.error m) = Except.ok (notTower k (.atom s r os))
  rw [hiff]

/-- Counterexample to claim C1 as stated: for the syntactically valid
implication `(a)P() → (b)Q()` (itself produced by the parser), the canonical
rendering is `((a)P() → (b)Q())` and re-parsing it raises the tokenizer's
unknown-character error on the grouping parenthesis. -/
theorem c1_counterexample :
    parseText "(a)P() → (b)Q()".data = .ok (.comp .implies [atomA, atomB]) ∧
    render (.comp .implies [atomA, atomB]) = "((a)P() → (b)Q())".data ∧
    parseText (render (.comp .implies [atomA, atomB])) =
      .error "Unexpected character" := by
  refine ⟨by decide, by decide, by decide⟩

/-- Witness for the amended C1 at `¬(Pedro)Feliz()`. -/
theorem c1_roundtrip_witness :
    wfAtomE "Pedro".data "Feliz".data [] ∧
    parseText (render (notTower 1 (.atom "Pedro".data "Feliz".data []))) =
      .ok (notTower 1 (.atom "Pedro".data "Feliz".data [])) :=
  ⟨by decide, c1_roundtrip_not_atom 1 "Pedro".data "Feliz".data [] (by decide)⟩

/-- Python `str.upper()` (ASCII letters; the glyphs are unaffected). -/
def upperStr (l : Str) : Str := l.map Char.toUpper

/-- `LogicalOperator.from_text` (logic_parser.py, lines 37-47): dictionary
lookup on the upper-cased text.  The keys are compared exactly; note the
lower-case key `'v'` can never match an upper-cased lookup. -/
def fromText (text : Str) : Option Op :=
  let k := upperStr text
  if k = "∧".data then some .and
  else if k = "AND".data then some .and
  else if k = "&".data then some .and
  else if k = "^".data then some .and
  else if k = "∨".data then some .or
  else if k = "OR".data then some .or
  else if k = "|".data then some .or
  else if k = "v".data then some .or
  else if k = "¬".data then some .not
  else if k = "NOT".data then some .not
  else if k = "~".data then some .not
  else if k = "!".data then some .not
  else if k = "→".data then some .implies
  else if k = "IMPLIES".data then some .implies
  else if k = "->".data then some .implies
  else if k = "=>".data then some .implies
  else if k = "↔".data then some .iff
  else if k = "IFF".data then some .iff
  else if k = "<->".data then some .iff
  else if k = "<=>".data then some .iff
  else none

theorem parseAndLoop_nil (fuel : Nat) (acc : List Expr) :
    parseAndLoop fuel acc [] = .ok (acc, []) := by
  cases fuel <;> rfl

theorem parseAndLoop_step (fuel : Nat) (acc : List Expr) (rest : List Str) (e : Expr)
    (r : List Str) (h : parseNotTk rest = .ok (e, r)) :
    parseAndLoop (fuel + 1) acc ("∧".data :: rest) = parseAndLoop fuel (acc ++ [e]) r := by
  conv_lhs => rw [parseAndLoop]
  rw [if_pos rfl, h]

theorem parseAndLoop_skip (fuel : Nat) (acc : List Expr) (t : Str) (rest : List Str)
    (ht : t ≠ "∧".data) :
    parseAndLoop (fuel + 1) acc (t :: rest) = .ok (acc, t :: rest) := by
  unfold parseAndLoop
  rw [if_neg ht]

theorem parseOrLoop_nil (fuel : Nat) (acc : List Expr) :
    parseOrLoop fuel acc [] = .ok (acc, []) := by
  cases fuel <;> rfl

theorem parseOrLoop_step (fuel : Nat) (acc : List Expr) (rest : List Str) (e : Expr)
    (r : List Str) (h : parseAnd rest = .ok (e, r)) :
    parseOrLoop (fuel + 1) acc ("∨".data :: rest) = parseOrLoop fuel (acc ++ [e]) r := by
  conv_lhs => rw [parseOrLoop]
  rw [if_pos rfl, h]

theorem parseOrLoop_skip (fuel : Nat) (acc : List Expr) (t : Str) (rest : List Str)
    (ht : t ≠ "∨".data) :
    parseOrLoop (fuel + 1) acc (t :: rest) = .ok (acc, t :: rest) := by
  unfold parseOrLoop
  rw [if_neg ht]

theorem parseImpLoop_nil (fuel : Nat) (left : Expr) :
    parseImpLoop fuel left [] = .ok (left, []) := by
  cases fuel <;> rfl

theorem parseImpLoop_step (fuel : Nat) (left : Expr) (rest : List Str) (e : Expr)
    (r : List Str) (h : parseOr rest = .ok (e, r)) :
    parseImpLoop (fuel + 1) left ("→".data :: rest) =
      parseImpLoop fuel (.comp .implies [left, e]) r := by
  conv_lhs => rw [parseImpLoop]
  rw [if_pos rfl, h]

theorem parseImpLoop_skip (fuel : Nat) (left : Expr) (t : Str) (rest : List Str)
    (ht : t ≠ "→".data) :
    parseImpLoop (fuel + 1) left (t :: rest) = .ok (left, t :: rest) := by
  unfold parseImpLoop
  rw [if_neg ht]

theorem parseIffLoop_nil (fuel : Nat) (left : Expr) :
    parseIffLoop fuel left [] = .ok (left, []) := by
  cases fuel <;> rfl

theorem parseIffLoop_step (fuel : Nat) (left : Expr) (rest : List Str) (e : Expr)
    (r : List Str) (h : parseImplies rest = .ok (e, r)) :
    parseIffLoop (fuel + 1) left ("↔".data :: rest) =
      parseIffLoop fuel (.comp .iff [left, e]) r := by
  conv_lhs => rw [parseIffLoop]
  rw [if_pos rfl, h]

theorem parseIffLoop_skip (fuel : Nat) (left : Expr) (t : Str) (rest : List Str)
    (ht : t ≠ "↔".data) :
    parseIffLoop (fuel + 1) left (t :: rest) = .ok (left, t :: rest) := by
  unfold parseIffLoop
  rw [if_neg ht]

theorem parseNotTk_atom (tok : Str) (rest : List Str) (e : Expr)
    (hne : tok ≠ "¬".data) (h : parseAtomToken tok = .ok e) :
    parseNotTk (tok :: rest) = .ok (e, rest) := by
  unfold parseNotTk
  rw [if_neg hne, h]

theorem scanAtom_cons_ne (c : Char) (t : List Char) (hc : c ≠ '(') :
    scanAtom (c :: t) = none := by
  unfold scanAtom
  split
  · rename_i rest0 heq
    injection heq with h1 _
    exact absurd h1 hc
  · rfl

theorem renderAtom_ne_nil (s r : Str) (os : List Str) : renderAtom s r os ≠ [] := by
  rw [renderAtom_cons]
  simp

theorem renderAtom_edges (s r : Str) (os : List Str) :
    headIsWs (renderAtom s r os) = false ∧
    headIsWs (renderAtom s r os).reverse = false := by
  constructor
  · rw [renderAtom_cons]
    rfl
  · rw [renderAtom_concat, List.reverse_append]
    rfl

theorem strip_atom_mid_atom (s1 r1 : Str) (os1 : List Str) (M : Str) (s2 r2 : Str)
    (os2 : List Str) :
    strip (renderAtom s1 r1 os1 ++ M ++ renderAtom s2 r2 os2) =
      renderAtom s1 r1 os1 ++ M ++ renderAtom s2 r2 os2 := by
  apply strip_eq_self
  · rw [headIsWs_append _ _ (by simp [renderAtom_ne_nil]),
        headIsWs_append _ _ (renderAtom_ne_nil s1 r1 os1)]
    exact (renderAtom_edges s1 r1 os1).1
  · rw [List.reverse_append,
        headIsWs_append _ _ (by simp [renderAtom_ne_nil])]
    exact (renderAtom_edges s2 r2 os2).2

theorem strip_cons_atom (c : Char) (s r : Str) (os : List Str)
    (hws : c.isWhitespace = false) :
    strip (c :: renderAtom s r os) = c :: renderAtom s r os := by
  apply strip_eq_self
  · exact hws
  · rw [List.reverse_cons, headIsWs_append _ _ (by simp [renderAtom_ne_nil])]
    exact (renderAtom_edges s r os).2

theorem parseAnd_eq (ts : List Str) (e : Expr) (r : List Str)
    (h : parseNotTk ts = .ok (e, r)) :
    parseAnd ts = (match parseAndLoop r.length [e] r with
      | .ok ([single], rest) => Except.ok (single, rest)
      | .ok (ops, rest) => Except.ok (Expr.comp Op.and ops, rest)
      | .error m => Except.error m) := by
  unfold parseAnd
  rw [h]

theorem parseOr_eq (ts : List Str) (e : Expr) (r : List Str)
    (h : parseAnd ts = .ok (e, r)) :
    parseOr ts = (match parseOrLoop r.length [e] r with
      | .ok ([single], rest) => Except.ok (single, rest)
      | .ok (ops, rest) => Except.ok (Expr.comp Op.or ops, rest)
      | .error m => Except.error m) := by
  unfold parseOr
  rw [h]

theorem parseImplies_eq (ts : List Str) (e : Expr) (r : List Str)
    (h : parseOr ts = .ok (e, r)) :
    parseImplies ts = parseImpLoop r.length e r := by
  unfold parseImplies
  rw [h]

theorem parseIff_eq (ts : List Str) (e : Expr) (r : List Str)
    (h : parseImplies ts = .ok (e, r)) :
    parseIff ts = parseIffLoop r.length e r := by
  unfold parseIff
  rw [h]

theorem parseOr_of_and (ts : List Str) (e : Expr) (h : parseAnd ts = .ok (e, [])) :
    parseOr ts = .ok (e, []) := by
  unfold parseOr
  rw [h]
  rfl

theorem parseImplies_of_or (ts : List Str) (e : Expr) (h : parseOr ts = .ok (e, [])) :
    parseImplies ts = .ok (e, []) := by
  unfold parseImplies
  rw [h]
  rfl

theorem parseIff_of_implies (ts : List Str) (e : Expr) (h : parseImplies ts = .ok (e, [])) :
    parseIff ts = .ok (e, []) := by
  unfold parseIff
  rw [h]
  rfl

theorem parseText_of_tokens (input : List Char) (t0 : Str) (ts : List Str) (e : Expr)
    (hstrip : strip input = input) (htok : tokenize input = .ok (t0 :: ts))
    (hiff : parseIff (t0 :: ts) = .ok (e, [])) :
    parseText input = .ok e := by
  unfold parseText
  rw [hstrip, htok]
  show (match parseIff (t0 :: ts) with
    | .ok (e, []) => Except.ok e
    | .ok (_, _ :: _) => Except.error "Unexpected token"
    | .error m => Except.error m) = Except.ok e
  rw [hiff]

theorem parseText_err_of_tokens (input : List Char) (m : String)
    (hstrip : strip input = input) (htok : tokenize input = .error m) :
    parseText input = .error m := by
  unfold parseText
  rw [hstrip, htok]

theorem parseAnd_single (tok : Str) (e : Expr) (hne : tok ≠ "¬".data)
    (h : parseAtomToken tok = .ok e) :
    parseAnd [tok] = .ok (e, []) := by
  rw [parseAnd_eq [tok] e [] (parseNotTk_atom tok [] e hne h), parseAndLoop_nil]

theorem parseAnd_skipop (tA op tB : Str) (A : Expr) (hop : op ≠ "∧".data)
    (hAn : tA ≠ "¬".data) (hA : parseAtomToken tA = .ok A) :
    parseAnd [tA, op, tB] = .ok (A, [op, tB]) := by
  rw [parseAnd_eq [tA, op, tB] A [op, tB] (parseNotTk_atom tA [op, tB] A hAn hA)]
  have hloop : parseAndLoop ([op, tB] : List Str).length [A] [op, tB] =
      .ok ([A], op :: [tB]) := by
    show parseAndLoop (1 + 1) [A] (op :: [tB]) = _
    exact parseAndLoop_skip 1 [A] op [tB] hop
  rw [hloop]

theorem parseIff_pair_and (tA tB : Str) (A B : Expr)
    (hA : parseAtomToken tA = .ok A) (hB : parseAtomToken tB = .ok B)
    (hAn : tA ≠ "¬".data) (hBn : tB ≠ "¬".data) :
    parseIff [tA, "∧".data, tB] = .ok (.comp .and [A, B], []) := by
  have hand : parseAnd [tA, "∧".data, tB] = .ok (.comp .and [A, B], []) := by
    rw [parseAnd_eq [tA, "∧".data, tB] A ["∧".data, tB]
      (parseNotTk_atom tA ["∧".data, tB] A hAn hA)]
    have hloop : parseAndLoop (["∧".data, tB] : List Str).length [A] ["∧".data, tB] =
        .ok ([A, B], []) := by
      show parseAndLoop (1 + 1) [A] ("∧".data :: [tB]) = _
      rw [parseAndLoop_step 1 [A] [tB] B [] (parseNotTk_atom tB [] B hBn hB)]
      exact parseAndLoop_nil 1 ([A] ++ [B])
    rw [hloop]
  exact parseIff_of_implies _ _ (parseImplies_of_or _ _ (parseOr_of_and _ _ hand))

theorem parseIff_pair_or (tA tB : Str) (A B : Expr)
    (hA : parseAtomToken tA = .ok A) (hB : parseAtomToken tB = .ok B)
    (hAn : tA ≠ "¬".data) (hBn : tB ≠ "¬".data) :
    parseIff [tA, "∨".data, tB] = .ok (.comp .or [A, B], []) := by
  have hand := parseAnd_skipop tA "∨".data tB A (by decide) hAn hA
  have handB := parseAnd_single tB B hBn hB
  have hor : parseOr [tA, "∨".data, tB] = .ok (.comp .or [A, B], []) := by
    rw [parseOr_eq [tA, "∨".data, tB] A ["∨".data, tB] hand]
    have hloop : parseOrLoop (["∨".data, tB] : List Str).length [A] ["∨".data, tB] =
        .ok ([A, B], []) := by
      show parseOrLoop (1 + 1) [A] ("∨".data :: [tB]) = _
      rw [parseOrLoop_step 1 [A] [tB] B [] handB]
      exact parseOrLoop_nil 1 ([A] ++ [B])
    rw [hloop]
  exact parseIff_of_implies _ _ (parseImplies_of_or _ _ hor)

theorem parseIff_pair_implies (tA tB : Str) (A B : Expr)
    (hA : parseAtomToken tA = .ok A) (hB : parseAtomToken tB = .ok B)
    (hAn : tA ≠ "¬".data) (hBn : tB ≠ "¬".data) :
    parseIff [tA, "→".data, tB] = .ok (.comp .implies [A, B], []) := by
  have hand := parseAnd_skipop tA "→".data tB A (by decide) hAn hA
  have hor : parseOr [tA, "→".data, tB] = .ok (A, ["→".data, tB]) := by
    rw [parseOr_eq [tA, "→".data, tB] A ["→".data, tB] hand]
    have hloop : parseOrLoop (["→".data, tB] : List Str).length [A] ["→".data, tB] =
        .ok ([A], "→".data :: [tB]) := by
      show parseOrLoop (1 + 1) [A] ("→".data :: [tB]) = _
      exact parseOrLoop_skip 1 [A] "→".data [tB] (by decide)
    rw [hloop]
  have horB : parseOr [tB] = .ok (B, []) :=
    parseOr_of_and _ _ (parseAnd_single tB B hBn hB)
  have himp : parseImplies [tA, "→".data, tB] = .ok (.comp .implies [A, B], []) := by
    rw [parseImplies_eq [tA, "→".data, tB] A ["→".data, tB] hor]
    show parseImpLoop (1 + 1) A ("→".data :: [tB]) = _
    rw [parseImpLoop_step 1 A [tB] B [] horB]
    exact parseImpLoop_nil 1 (.comp .implies [A, B])
  exact parseIff_of_implies _ _ himp

theorem parseIff_pair_iff (tA tB : Str) (A B : Expr)
    (hA : parseAtomToken tA = .ok A) (hB : parseAtomToken tB = .ok B)
    (hAn : tA ≠ "¬".data) (hBn : tB ≠ "¬".data) :
    parseIff [tA, "↔".data, tB] = .ok (.comp .iff [A, B], []) := by
  have hand := parseAnd_skipop tA "↔".data tB A (by decide) hAn hA
  have hor : parseOr [tA, "↔".data, tB] = .ok (A, ["↔".data, tB]) := by
    rw [parseOr_eq [tA, "↔".data, tB] A ["↔".data, tB] hand]
    have hloop : parseOrLoop (["↔".data, tB] : List Str).length [A] ["↔".data, tB] =
        .ok ([A], "↔".data :: [tB]) := by
      show parseOrLoop (1 + 1) [A] ("↔".data :: [tB]) = _
      exact parseOrLoop_skip 1 [A] "↔".data [tB] (by decide)
    rw [hloop]
  have himp : parseImplies [tA, "↔".data, tB] = .ok (A, ["↔".data, tB]) := by
    rw [parseImplies_eq [tA, "↔".data, tB] A ["↔".data, tB] hor]
    show parseImpLoop (1 + 1) A ("↔".data :: [tB]) = _
    exact parseImpLoop_skip 1 A "↔".data [tB] (by decide)
  have himpB : parseImplies [tB] = .ok (B, []) :=
    parseImplies_of_or _ _ (parseOr_of_and _ _ (parseAnd_single tB B hBn hB))
  rw [parseIff_eq [tA, "↔".data, tB] A ["↔".data, tB] himp]
  show parseIffLoop (1 + 1) A ("↔".data :: [tB]) = _
  rw [parseIffLoop_step 1 A [tB] B [] himpB]
  exact parseIffLoop_nil 1 (.comp .iff [A, B])

theorem tokenize_renderAtom_nil (s r : Str) (os : List Str) (hwf : wfAtomE s r os) :
    tokenize (renderAtom s r os) = .ok [renderAtom s r os] := by
  have h := tokenize_renderAtom s r os [] hwf
  rw [List.append_nil] at h
  rw [h]
  rfl

theorem tokenize_sp_one_sp (c : Char) (tk : Str) (X : List Char)
    (hc : c ≠ '(') (hcws : c.isWhitespace = false)
    (htwo : normTwo c ' ' = none) (hone : normOne c = some tk) :
    tokenize (' ' :: c :: ' ' :: X) = (tokenize X).map (tk :: ·) := by
  rw [tokenize_cons_ws ' ' _ (by decide)]
  rw [tokenize_one_step c (' ' :: X) tk hcws (scanAtom_cons_ne c _ hc)
    (fun b cs2 heq => by injection heq with h1 _; subst h1; exact htwo) hone]
  rw [tokenize_cons_ws ' ' X (by decide)]

theorem tokenize_sp_two_sp (a b : Char) (tk : Str) (X : List Char)
    (ha : a ≠ '(') (haws : a.isWhitespace = false) (htwo : normTwo a b = some tk) :
    tokenize (' ' :: a :: b :: ' ' :: X) = (tokenize X).map (tk :: ·) := by
  rw [tokenize_cons_ws ' ' _ (by decide),
      tokenize_two_step a b (' ' :: X) tk haws (scanAtom_cons_ne a _ ha) htwo,
      tokenize_cons_ws ' ' X (by decide)]

theorem tokenize_sp_err (c : Char) (b : Char) (X : List Char)
    (hc : c ≠ '(') (hcws : c.isWhitespace = false)
    (htwo : normTwo c b = none) (hone : normOne c = none) :
    tokenize (' ' :: c :: b :: X) = .error "Unexpected character" := by
  rw [tokenize_cons_ws ' ' _ (by decide)]
  exact tokenize_err_step c (b :: X) hcws (scanAtom_cons_ne c _ hc)
    (fun b2 cs2 heq => by injection heq with h1 _; subst h1; exact htwo) hone

/-- Tokens of `renderAtom₁ ++ " g " ++ renderAtom₂` for a single-character
connective `g` that the tokenizer accepts and normalizes to `tk`. -/
theorem tokenize_binary_one (s1 r1 : Str) (os1 : List Str) (s2 r2 : Str) (os2 : List Str)
    (hwf1 : wfAtomE s1 r1 os1) (hwf2 : wfAtomE s2 r2 os2)
    (c : Char) (tk : Str) (hc : c ≠ '(') (hcws : c.isWhitespace = false)
    (htwo : normTwo c ' ' = none) (hone : normOne c = some tk) :
    tokenize (renderAtom s1 r1 os1 ++ (' ' :: c :: ' ' :: renderAtom s2 r2 os2)) =
      .ok [renderAtom s1 r1 os1, tk, renderAtom s2 r2 os2] := by
  rw [tokenize_renderAtom s1 r1 os1 _ hwf1,
      tokenize_sp_one_sp c tk _ hc hcws htwo hone,
      tokenize_renderAtom_nil s2 r2 os2 hwf2]
  rfl

/-- Tokens of `renderAtom₁ ++ " ab " ++ renderAtom₂` for a two-character
alias normalized to `tk`. -/
theorem tokenize_binary_two (s1 r1 : Str) (os1 : List Str) (s2 r2 : Str) (os2 : List Str)
    (hwf1 : wfAtomE s1 r1 os1) (hwf2 : wfAtomE s2 r2 os2)
    (a b : Char) (tk : Str) (ha : a ≠ '(') (haws : a.isWhitespace = false)
    (htwo : normTwo a b = some tk) :
    tokenize (renderAtom s1 r1 os1 ++ (' ' :: a :: b :: ' ' :: renderAtom s2 r2 os2)) =
      .ok [renderAtom s1 r1 os1, tk, renderAtom s2 r2 os2] := by
  rw [tokenize_renderAtom s1 r1 os1 _ hwf1,
      tokenize_sp_two_sp a b tk _ ha haws htwo,
      tokenize_renderAtom_nil s2 r2 os2 hwf2]
  rfl

/-- The tokenizer error for `renderAtom₁ ++ " c b... "` where `c` starts no
recognized token. -/
theorem tokenize_binary_err (s1 r1 : Str) (os1 : List Str)
    (hwf1 : wfAtomE s1 r1 os1) (c b : Char) (X : List Char)
    (hc : c ≠ '(') (hcws : c.isWhitespace = false)
    (htwo : normTwo c b = none) (hone : normOne c = none) :
    tokenize (renderAtom s1 r1 os1 ++ (' ' :: c :: b :: X)) =
      .error "Unexpected character" := by
  rw [tokenize_renderAtom s1 r1 os1 _ hwf1,
      tokenize_sp_err c b X hc hcws htwo hone]
  rfl

theorem strip_pref_atom (P : Str) (s r : Str) (os : List Str)
    (hP : headIsWs P = false) (hPne : P ≠ []) :
    strip (P ++ renderAtom s r os) = P ++ renderAtom s r os := by
  apply strip_eq_self
  · rw [headIsWs_append _ _ hPne]
    exact hP
  · rw [List.reverse_append, headIsWs_append _ _ (by simp [renderAtom_ne_nil])]
    exact (renderAtom_edges s r os).2

theorem tokenize_word_err (c b : Char) (X : List Char)
    (hc : c ≠ '(') (hcws : c.isWhitespace = false)
    (htwo : normTwo c b = none) (hone : normOne c = none) :
    tokenize (c :: b :: X) = .error "Unexpected character" :=
  tokenize_err_step c (b :: X) hcws (scanAtom_cons_ne c _ hc)
    (fun b2 cs2 heq => by injection heq with h1 _; subst h1; exact htwo) hone

theorem renderAtom_head_par (s r : Str) (os : List Str) :
    ∀ b cs2, renderAtom s r os = b :: cs2 → b = '(' := by
  intro b cs2 heq
  rw [renderAtom_cons] at heq
  injection heq with h1 _
  exact h1.symm

/-- Tokens of a single-character negation alias applied to an atom. -/
theorem tokenize_neg_one (c : Char) (s r : Str) (os : List Str) (hwf : wfAtomE s r os)
    (hc : c ≠ '(') (hcws : c.isWhitespace = false)
    (htwo : normTwo c '(' = none) (hone : normOne c = some "¬".data) :
    tokenize (c :: renderAtom s r os) = .ok ["¬".data, renderAtom s r os] := by
  rw [tokenize_one_step c _ "¬".data hcws (scanAtom_cons_ne c _ hc)
    (fun b2 cs2 heq => by rw [renderAtom_head_par s r os b2 cs2 heq]; exact htwo) hone,
    tokenize_renderAtom_nil s r os hwf]
  rfl

theorem parseIff_neg_atom (s r : Str) (os : List Str) (hwf : wfAtomE s r os) :
    parseIff ["¬".data, renderAtom s r os] = .ok (.comp .not [.atom s r os], []) := by
  apply parseIff_single
  unfold parseNotTk
  rw [if_pos rfl, parseNotTk_atom (renderAtom s r os) [] (.atom s r os)
    (renderAtom_ne_not s r os) (parseAtomToken_renderAtom s r os hwf)]

/-- Claim C3 (amended): the tokenizer accepts the canonical glyphs and the
single-character aliases `& ^ | v ~ !` plus the two-character arrows `->`,
`=>`, normalizing all of them before AST construction (so the alias spelling
parses to the same expression as the glyph spelling); but the word aliases
`AND OR NOT IMPLIES IFF` and the arrows `<->`, `<=>` are rejected with the
tokenizer's unknown-character error — they exist only in the
`LogicalOperator.from_text` table, which the tokenizer never consults (the
final conjunct records that table's behaviour). -/
theorem c3_alias_normalization (s1 r1 : Str) (os1 : List Str) (s2 r2 : Str) (os2 : List Str)
    (hwf1 : wfAtomE s1 r1 os1) (hwf2 : wfAtomE s2 r2 os2) :
    (parseText (renderAtom s1 r1 os1 ++ " ∧ ".data ++ renderAtom s2 r2 os2) =
       .ok (.comp .and [.atom s1 r1 os1, .atom s2 r2 os2]) ∧
     parseText (renderAtom s1 r1 os1 ++ " & ".data ++ renderAtom s2 r2 os2) =
       .ok (.comp .and [.atom s1 r1 os1, .atom s2 r2 os2]) ∧
     parseText (renderAtom s1 r1 os1 ++ " ^ ".data ++ renderAtom s2 r2 os2) =
       .ok (.comp .and [.atom s1 r1 os1, .atom s2 r2 os2])) ∧
    (parseText (renderAtom s1 r1 os1 ++ " ∨ ".data ++ renderAtom s2 r2 os2) =
       .ok (.comp .or [.atom s1 r1 os1, .atom s2 r2 os2]) ∧
     parseText (renderAtom s1 r1 os1 ++ " | ".data ++ renderAtom s2 r2 os2) =
       .ok (.comp .or [.atom s1 r1 os1, .atom s2 r2 os2]) ∧
     parseText (renderAtom s1 r1 os1 ++ " v ".data ++ renderAtom s2 r2 os2) =
       .ok (.comp .or [.atom s1 r1 os1, .atom s2 r2 os2])) ∧
    (parseText (renderAtom s1 r1 os1 ++ " → ".data ++ renderAtom s2 r2 os2) =
       .ok (.comp .implies [.atom s1 r1 os1, .atom s2 r2 os2]) ∧
     parseText (renderAtom s1 r1 os1 ++ " -> ".data ++ renderAtom s2 r2 os2) =
       .ok (.comp .implies [.atom s1 r1 os1, .atom s2 r2 os2]) ∧
     parseText (renderAtom s1 r1 os1 ++ " => ".data ++ renderAtom s2 r2 os2) =
       .ok (.comp .implies [.atom s1 r1 os1, .atom s2 r2 os2])) ∧
    (parseText (renderAtom s1 r1 os1 ++ " ↔ ".data ++ renderAtom s2 r2 os2) =
       .ok (.comp .iff [.atom s1 r1 os1, .atom s2 r2 os2])) ∧
    (parseText ("¬".data ++ renderAtom s1 r1 os1) =
       .ok (.comp .not [.atom s1 r1 os1]) ∧
     parseText ("~".data ++ renderAtom s1 r1 os1) =
       .ok (.comp .not [.atom s1 r1 os1]) ∧
     parseText ("!".data ++ renderAtom s1 r1 os1) =
       .ok (.comp .not [.atom s1 r1 os1])) ∧
    (parseText (renderAtom s1 r1 os1 ++ " AND ".data ++ renderAtom s2 r2 os2) =
       .error "Unexpected character" ∧
     parseText (renderAtom s1 r1 os1 ++ " OR ".data ++ renderAtom s2 r2 os2) =
       .error "Unexpected character" ∧
     parseText (renderAtom s1 r1 os1 ++ " IMPLIES ".data ++ renderAtom s2 r2 os2) =
       .error "Unexpected character" ∧
     parseText (renderAtom s1 r1 os1 ++ " IFF ".data ++ renderAtom s2 r2 os2) =
       .error "Unexpected character" ∧
     parseText (renderAtom s1 r1 os1 ++ " <-> ".data ++ renderAtom s2 r2 os2) =
       .error "Unexpected character" ∧
     parseText (renderAtom s1 r1 os1 ++ " <=> ".data ++ renderAtom s2 r2 os2) =
       .error "Unexpected character" ∧
     parseText ("NOT ".data ++ renderAtom s1 r1 os1) =
       .error "Unexpected character") ∧
    (fromText "AND".data = some .and ∧ fromText "and".data = some .and ∧
     fromText "OR".data = some .or ∧ fromText "not".data = some .not ∧
     fromText "IMPLIES".data = some .implies ∧ fromText "IFF".data = some .iff ∧
     fromText "<->".data = some .iff ∧ fromText "<=>".data = some .iff) := by
  have hA := parseAtomToken_renderAtom s1 r1 os1 hwf1
  have hB := parseAtomToken_renderAtom s2 r2 os2 hwf2
  have hAn := renderAtom_ne_not s1 r1 os1
  have hBn := renderAtom_ne_not s2 r2 os2
  refine ⟨⟨?_, ?_, ?_⟩, ⟨?_, ?_, ?_⟩, ⟨?_, ?_, ?_⟩, ?_, ⟨?_, ?_, ?_⟩,
    ⟨?_, ?_, ?_, ?_, ?_, ?_, ?_⟩, by decide⟩
  · refine parseText_of_tokens _ (renderAtom s1 r1 os1)
      ["∧".data, renderAtom s2 r2 os2] _
      (strip_atom_mid_atom s1 r1 os1 " ∧ ".data s2 r2 os2) ?_ ?_
    · show tokenize (renderAtom s1 r1 os1 ++ " ∧ ".data ++ renderAtom s2 r2 os2) = _
      rw [List.append_assoc]
      exact tokenize_binary_one s1 r1 os1 s2 r2 os2 hwf1 hwf2 '∧' "∧".data
        (by decide) (by decide) (by decide) (by decide)
    · exact parseIff_pair_and _ _ _ _ hA hB hAn hBn
  · refine parseText_of_tokens _ (renderAtom s1 r1 os1)
      ["∧".data, renderAtom s2 r2 os2] _
      (strip_atom_mid_atom s1 r1 os1 " & ".data s2 r2 os2) ?_ ?_
    · show tokenize (renderAtom s1 r1 os1 ++ " & ".data ++ renderAtom s2 r2 os2) = _
      rw [List.append_assoc]
      exact tokenize_binary_one s1 r1 os1 s2 r2 os2 hwf1 hwf2 '&' "∧".data
        (by decide) (by decide) (by decide) (by decide)
    · exact parseIff_pair_and _ _ _ _ hA hB hAn hBn
  · refine parseText_of_tokens _ (renderAtom s1 r1 os1)
      ["∧".data, renderAtom s2 r2 os2] _
      (strip_atom_mid_atom s1 r1 os1 " ^ ".data s2 r2 os2) ?_ ?_
    · show tokenize (renderAtom s1 r1 os1 ++ " ^ ".data ++ renderAtom s2 r2 os2) = _
      rw [List.append_assoc]
      exact tokenize_binary_one s1 r1 os1 s2 r2 os2 hwf1 hwf2 '^' "∧".data
        (by decide) (by decide) (by decide) (by decide)
    · exact parseIff_pair_and _ _ _ _ hA hB hAn hBn
  · refine parseText_of_tokens _ (renderAtom s1 r1 os1)
      ["∨".data, renderAtom s2 r2 os2] _
      (strip_atom_mid_atom s1 r1 os1 " ∨ ".data s2 r2 os2) ?_ ?_
    · show tokenize (renderAtom s1 r1 os1 ++ " ∨ ".data ++ renderAtom s2 r2 os2) = _
      rw [List.append_assoc]
      exact tokenize_binary_one s1 r1 os1 s2 r2 os2 hwf1 hwf2 '∨' "∨".data
        (by decide) (by decide) (by decide) (by decide)
    · exact parseIff_pair_or _ _ _ _ hA hB hAn hBn
  · refine parseText_of_tokens _ (renderAtom s1 r1 os1)
      ["∨".data, renderAtom s2 r2 os2] _
      (strip_atom_mid_atom s1 r1 os1 " | ".data s2 r2 os2) ?_ ?_
    · show tokenize (renderAtom s1 r1 os1 ++ " | ".data ++ renderAtom s2 r2 os2) = _
      rw [List.append_assoc]
      exact tokenize_binary_one s1 r1 os1 s2 r2 os2 hwf1 hwf2 '|' "∨".data
        (by decide) (by decide) (by decide) (by decide)
    · exact parseIff_pair_or _ _ _ _ hA hB hAn hBn
  · refine parseText_of_tokens _ (renderAtom s1 r1 os1)
      ["∨".data, renderAtom s2 r2 os2] _
      (strip_atom_mid_atom s1 r1 os1 " v ".data s2 r2 os2) ?_ ?_
    · show tokenize (renderAtom s1 r1 os1 ++ " v ".data ++ renderAtom s2 r2 os2) = _
      rw [List.append_assoc]
      exact tokenize_binary_one s1 r1 os1 s2 r2 os2 hwf1 hwf2 'v' "∨".data
        (by decide) (by decide) (by decide) (by decide)
    · exact parseIff_pair_or _ _ _ _ hA hB hAn hBn
  · refine parseText_of_tokens _ (renderAtom s1 r1 os1)
      ["→".data, renderAtom s2 r2 os2] _
      (strip_atom_mid_atom s1 r1 os1 " → ".data s2 r2 os2) ?_ ?_
    · show tokenize (renderAtom s1 r1 os1 ++ " → ".data ++ renderAtom s2 r2 os2) = _
      rw [List.append_assoc]
      exact tokenize_binary_one s1 r1 os1 s2 r2 os2 hwf1 hwf2 '→' "→".data
        (by decide) (by decide) (by decide) (by decide)
    · exact parseIff_pair_implies _ _ _ _ hA hB hAn hBn
  · refine parseText_of_tokens _ (renderAtom s1 r1 os1)
      ["→".data, renderAtom s2 r2 os2] _
      (strip_atom_mid_atom s1 r1 os1 " -> ".data s2 r2 os2) ?_ ?_
    · show tokenize (renderAtom s1 r1 os1 ++ " -> ".data ++ renderAtom s2 r2 os2) = _
      rw [List.append_assoc]
      exact tokenize_binary_two s1 r1 os1 s2 r2 os2 hwf1 hwf2 '-' '>' "→".data
        (by decide) (by decide) (by decide)
    · exact parseIff_pair_implies _ _ _ _ hA hB hAn hBn
  · refine parseText_of_tokens _ (renderAtom s1 r1 os1)
      ["→".data, renderAtom s2 r2 os2] _
      (strip_atom_mid_atom s1 r1 os1 " => ".data s2 r2 os2) ?_ ?_
    · show tokenize (renderAtom s1 r1 os1 ++ " => ".data ++ renderAtom s2 r2 os2) = _
      rw [List.append_assoc]
      exact tokenize_binary_two s1 r1 os1 s2 r2 os2 hwf1 hwf2 '=' '>' "→".data
        (by decide) (by decide) (by decide)
    · exact parseIff_pair_implies _ _ _ _ hA hB hAn hBn
  · refine parseText_of_tokens _ (renderAtom s1 r1 os1)
      ["↔".data, renderAtom s2 r2 os2] _
      (strip_atom_mid_atom s1 r1 os1 " ↔ ".data s2 r2 os2) ?_ ?_
    · show tokenize (renderAtom s1 r1 os1 ++ " ↔ ".data ++ renderAtom s2 r2 os2) = _
      rw [List.append_assoc]
      exact tokenize_binary_one s1 r1 os1 s2 r2 os2 hwf1 hwf2 '↔' "↔".data
        (by decide) (by decide) (by decide) (by decide)
    · exact parseIff_pair_iff _ _ _ _ hA hB hAn hBn
  · refine parseText_of_tokens _ "¬".data [renderAtom s1 r1 os1] _
      (strip_pref_atom "¬".data s1 r1 os1 (by decide) (by decide)) ?_ ?_
    · show tokenize ("¬".data ++ renderAtom s1 r1 os1) = _
      exact tokenize_neg_one '¬' s1 r1 os1 hwf1 (by decide) (by decide)
        (by decide) (by decide)
    · exact parseIff_neg_atom s1 r1 os1 hwf1
  · refine parseText_of_tokens _ "¬".data [renderAtom s1 r1 os1] _
      (strip_pref_atom "~".data s1 r1 os1 (by decide) (by decide)) ?_ ?_
    · show tokenize ("~".data ++ renderAtom s1 r1 os1) = _
      exact tokenize_neg_one '~' s1 r1 os1 hwf1 (by decide) (by decide)
        (by decide) (by decide)
    · exact parseIff_neg_atom s1 r1 os1 hwf1
  · refine parseText_of_tokens _ "¬".data [renderAtom s1 r1 os1] _
      (strip_pref_atom "!".data s1 r1 os1 (by decide) (by decide)) ?_ ?_
    · show tokenize ("!".data ++ renderAtom s1 r1 os1) = _
      exact tokenize_neg_one '!' s1 r1 os1 hwf1 (by decide) (by decide)
        (by decide) (by decide)
    · exact parseIff_neg_atom s1 r1 os1 hwf1
  · refine parseText_err_of_tokens _ _
      (strip_atom_mid_atom s1 r1 os1 " AND ".data s2 r2 os2) ?_
    show tokenize (renderAtom s1 r1 os1 ++ " AND ".data ++ renderAtom s2 r2 os2) = _
    rw [List.append_assoc]
    exact tokenize_binary_err s1 r1 os1 hwf1 'A' 'N'
      ('D' :: ' ' :: renderAtom s2 r2 os2) (by decide) (by decide) (by decide) (by decide)
  · refine parseText_err_of_tokens _ _
      (strip_atom_mid_atom s1 r1 os1 " OR ".data s2 r2 os2) ?_
    show tokenize (renderAtom s1 r1 os1 ++ " OR ".data ++ renderAtom s2 r2 os2) = _
    rw [List.append_assoc]
    exact tokenize_binary_err s1 r1 os1 hwf1 'O' 'R'
      (' ' :: renderAtom s2 r2 os2) (by decide) (by decide) (by decide) (by decide)
  · refine parseText_err_of_tokens _ _
      (strip_atom_mid_atom s1 r1 os1 " IMPLIES ".data s2 r2 os2) ?_
    show tokenize (renderAtom s1 r1 os1 ++ " IMPLIES ".data ++ renderAtom s2 r2 os2) = _
    rw [List.append_assoc]
    exact tokenize_binary_err s1 r1 os1 hwf1 'I' 'M'
      ('P' :: 'L' :: 'I' :: 'E' :: 'S' :: ' ' :: renderAtom s2 r2 os2)
      (by decide) (by decide) (by decide) (by decide)
  · refine parseText_err_of_tokens _ _
      (strip_atom_mid_atom s1 r1 os1 " IFF ".data s2 r2 os2) ?_
    show tokenize (renderAtom s1 r1 os1 ++ " IFF ".data ++ renderAtom s2 r2 os2) = _
    rw [List.append_assoc]
    exact tokenize_binary_err s1 r1 os1 hwf1 'I' 'F'
      ('F' :: ' ' :: renderAtom s2 r2 os2) (by decide) (by decide) (by decide) (by decide)
  · refine parseText_err_of_tokens _ _
      (strip_atom_mid_atom s1 r1 os1 " <-> ".data s2 r2 os2) ?_
    show tokenize (renderAtom s1 r1 os1 ++ " <-> ".data ++ renderAtom s2 r2 os2) = _
    rw [List.append_assoc]
    exact tokenize_binary_err s1 r1 os1 hwf1 '<' '-'
      ('>' :: ' ' :: renderAtom s2 r2 os2) (by decide) (by decide) (by decide) (by decide)
  · refine parseText_err_of_tokens _ _
      (strip_atom_mid_atom s1 r1 os1 " <=> ".data s2 r2 os2) ?_
    show tokenize (renderAtom s1 r1 os1 ++ " <=> ".data ++ renderAtom s2 r2 os2) = _
    rw [List.append_assoc]
    exact tokenize_binary_err s1 r1 os1 hwf1 '<' '='
      ('>' :: ' ' :: renderAtom s2 r2 os2) (by decide) (by decide) (by decide) (by decide)
  · refine parseText_err_of_tokens _ _
      (strip_pref_atom "NOT ".data s1 r1 os1 (by decide) (by decide)) ?_
    show tokenize ("NOT ".data ++ renderAtom s1 r1 os1) = _
    exact tokenize_word_err 'N' 'O' ('T' :: ' ' :: renderAtom s1 r1 os1)
      (by decide) (by decide) (by decide) (by decide)

/-- Witness for the amended C3 at two concrete atoms: the first conjunct,
`(a)P() ∧ (b)Q()`, parsed from the glyph spelling. -/
theorem c3_alias_witness :
    parseText (renderAtom "a".data "P".data [] ++ " ∧ ".data ++
        renderAtom "b".data "Q".data []) =
      .ok (.comp .and [.atom "a".data "P".data [], .atom "b".data "Q".data []]) :=
  (c3_alias_normalization "a".data "P".data [] "b".data "Q".data []
    (by decide) (by decide)).1.1

/-- Counterexample to claim C3 as stated: the word alias `AND` and the
arrows `<->`, `<=>` are rejected by the tokenizer even though the glyph
spelling parses fine, so `parse(a + " AND " + b)` does not succeed. -/
theorem c3_counterexample :
    parseText "(a)P() ∧ (b)Q()".data = .ok (.comp .and [atomA, atomB]) ∧
    parseText "(a)P() AND (b)Q()".data = .error "Unexpected character" ∧
    parseText "(a)P() <-> (b)Q()".data = .error "Unexpected character" ∧
    parseText "(a)P() <=> (b)Q()".data = .error "Unexpected character" := by
  refine ⟨by decide, by decide, by decide, by decide⟩
